import Mathlib

/-!
Verification development for a multiplayer Texas Holdem server
(TypeScript backend).  The definitions below are shallow embeddings of
the backend services:

* `hand-evaluator.ts` : card normalisation, hand evaluation, hand
  comparison (`compareRankLists`, `compareHands`, `evaluateHand`,
  `determineWinners`);
* `showdown-service.ts` : `calculatePayouts`, `runShowdown`;
* `betting-service.ts` : `fold`, `check`, `call`, `raise`, `allIn`;
* `round-service.ts` : `isBettingRoundComplete`, `dealCommunityCards`;
* `db/games` : the SQL queries (`GET_NEXT_PLAYER`, `GET_FIRST_PLAYER`,
  `RESET_BETS`, `GET_CURRENT_BET`, the distinct-bet count of
  `areAllBetsEqual`) and `advanceTurn`.

Database rows are modelled as in-memory structures, a transaction is
modelled as a function on the whole state that either returns the new
state or an error (in which case the transaction is rolled back and the
old state is kept), and JavaScript numbers holding chip quantities are
modelled as `Int` (`Math.floor` becomes `Int.fdiv`, the JS remainder
operator becomes `Int.tmod`).
-/

namespace Poker

/-- A card row from the `cards` table: `rank` is one of
"A","2",…,"10","J","Q","K" and `suit` one of "H","D","C","S"
(the evaluator itself accepts any case and also "T"). -/
structure Card where
  rank : String
  suit : String
deriving DecidableEq, Repr

/-- The `RANK_VALUE` lookup table of `hand-evaluator.ts`. -/
def RANK_VALUE (r : String) : Option Int :=
  if r = "A" then some 14
  else if r = "K" then some 13
  else if r = "Q" then some 12
  else if r = "J" then some 11
  else if r = "10" then some 10
  else if r = "T" then some 10
  else if r = "9" then some 9
  else if r = "8" then some 8
  else if r = "7" then some 7
  else if r = "6" then some 6
  else if r = "5" then some 5
  else if r = "4" then some 4
  else if r = "3" then some 3
  else if r = "2" then some 2
  else none

/-- The `RANK_NAME` lookup table of `hand-evaluator.ts`. -/
def RANK_NAME (r : Int) : Option String :=
  if r = 14 then some "Ace"
  else if r = 13 then some "King"
  else if r = 12 then some "Queen"
  else if r = 11 then some "Jack"
  else if r = 10 then some "Ten"
  else if r = 9 then some "Nine"
  else if r = 8 then some "Eight"
  else if r = 7 then some "Seven"
  else if r = 6 then some "Six"
  else if r = 5 then some "Five"
  else if r = 4 then some "Four"
  else if r = 3 then some "Three"
  else if r = 2 then some "Two"
  else none

def VALID_SUITS : List String := ["h", "d", "c", "s"]

/-- A card after `normalizeCard`: numeric rank 2..14, lower-case suit. -/
structure NormalizedCard where
  rank : Int
  suit : String
deriving DecidableEq, Repr

/-- The JS `toUpperCase` on the ASCII card strings, written as a map
over the character list. -/
def jsToUpper (s : String) : String := ⟨s.data.map Char.toUpper⟩

/-- The JS `toLowerCase` on the ASCII card strings. -/
def jsToLower (s : String) : String := ⟨s.data.map Char.toLower⟩

/-- `normalizeCard` of `hand-evaluator.ts`; a `throw` becomes `.error`. -/
def normalizeCard (c : Card) : Except String NormalizedCard :=
  match RANK_VALUE (jsToUpper c.rank) with
  | none => .error ("Unsupported card rank: " ++ c.rank)
  | some r =>
    let s := jsToLower c.suit
    if VALID_SUITS.contains s then .ok ⟨r, s⟩
    else .error ("Unsupported card suit: " ++ c.suit)

/-- `compareRankLists` of `hand-evaluator.ts`: walk both lists up to the
longer length, reading a missing entry as `0` (the JS `a[i] ?? 0`), and
return the first non-zero head comparison. -/
def compareRankLists : List Int → List Int → Int
  | [], [] => 0
  | [], b :: bs =>
      if 0 > b then 1 else if 0 < b then -1 else compareRankLists [] bs
  | a :: as, [] =>
      if a > 0 then 1 else if a < 0 then -1 else compareRankLists as []
  | a :: as, b :: bs =>
      if a > b then 1 else if a < b then -1 else compareRankLists as bs
termination_by a b => a.length + b.length

/-- An evaluated hand as returned by `evaluateHand`: a category code
(the `HandCategory` enum, 0 = high card … 8 = straight flush), the
descending tie-breaker rank list, and the presentational strings. -/
structure EvaluatedHand where
  category : Nat
  ranks : List Int
  name : String
  description : String
deriving DecidableEq, Repr

namespace HandCategory

def HIGH_CARD : Nat := 0
def ONE_PAIR : Nat := 1
def TWO_PAIR : Nat := 2
def THREE_OF_A_KIND : Nat := 3
def STRAIGHT : Nat := 4
def FLUSH : Nat := 5
def FULL_HOUSE : Nat := 6
def FOUR_OF_A_KIND : Nat := 7
def STRAIGHT_FLUSH : Nat := 8

end HandCategory

/-- `compareHands` of `hand-evaluator.ts`: category first, then the
tie-breaker rank lists. -/
def compareHands (hand1 hand2 : EvaluatedHand) : Int :=
  if hand1.category > hand2.category then 1
  else if hand1.category < hand2.category then -1
  else compareRankLists hand1.ranks hand2.ranks

/-! ### Order lemmas for `compareRankLists` -/

theorem crl_self (a : List Int) : compareRankLists a a = 0 := by
  induction a with
  | nil => simp [compareRankLists]
  | cons x as ih => simp [compareRankLists, ih]

theorem crl_neg (a b : List Int) :
    compareRankLists a b = -compareRankLists b a := by
  induction a generalizing b with
  | nil =>
    induction b with
    | nil => simp [compareRankLists]
    | cons y bs ihb =>
      simp only [compareRankLists]
      rcases lt_trichotomy y 0 with h | h | h
      · simp [h, not_lt.mpr (le_of_lt h), lt_asymm h]
      · subst h; simpa using ihb
      · simp [h, not_lt.mpr (le_of_lt h), lt_asymm h]
  | cons x as ih =>
    cases b with
    | nil =>
      simp only [compareRankLists]
      rcases lt_trichotomy x 0 with h | h | h
      · simp [h, not_lt.mpr (le_of_lt h), lt_asymm h]
      · subst h; simpa using ih []
      · simp [h, not_lt.mpr (le_of_lt h), lt_asymm h]
    | cons y bs =>
      simp only [compareRankLists]
      rcases lt_trichotomy x y with h | h | h
      · simp [h, not_lt.mpr (le_of_lt h), lt_asymm h]
      · subst h; simpa using ih bs
      · simp [h, not_lt.mpr (le_of_lt h), lt_asymm h]

theorem crl_cases (a b : List Int) :
    compareRankLists a b = 1 ∨ compareRankLists a b = 0 ∨
      compareRankLists a b = -1 := by
  induction a generalizing b with
  | nil =>
    induction b with
    | nil => simp [compareRankLists]
    | cons y bs ihb =>
      simp only [compareRankLists]
      split
      · exact Or.inl rfl
      · split
        · exact Or.inr (Or.inr rfl)
        · exact ihb
  | cons x as ih =>
    cases b with
    | nil =>
      simp only [compareRankLists]
      split
      · exact Or.inl rfl
      · split
        · exact Or.inr (Or.inr rfl)
        · exact ih []
    | cons y bs =>
      simp only [compareRankLists]
      split
      · exact Or.inl rfl
      · split
        · exact Or.inr (Or.inr rfl)
        · exact ih bs

theorem crl_append_zero (a b : List Int) :
    compareRankLists (a ++ [0]) b = compareRankLists a b := by
  induction a generalizing b with
  | nil =>
    cases b with
    | nil => simp [compareRankLists]
    | cons y bs => simp only [List.nil_append, compareRankLists]
  | cons x as ih =>
    cases b with
    | nil => simp only [List.cons_append, compareRankLists, ih]
    | cons y bs => simp only [List.cons_append, compareRankLists, ih]

theorem crl_append_zeros (k : Nat) (a b : List Int) :
    compareRankLists (a ++ List.replicate k 0) b = compareRankLists a b := by
  induction k generalizing a with
  | zero => simp
  | succ n ih =>
    have h : a ++ List.replicate (n + 1) 0 = (a ++ [0]) ++ List.replicate n 0 := by
      simp [List.replicate_succ, List.append_assoc]
    rw [h, ih (a ++ [0]), crl_append_zero]

theorem crl_append_zeros_right (k : Nat) (a b : List Int) :
    compareRankLists a (b ++ List.replicate k 0) = compareRankLists a b := by
  rw [crl_neg, crl_append_zeros, ← crl_neg]

/-- Padding a rank list to a given length with zeros (the value the JS
code reads past the end of the array). -/
def padTo (l : List Int) (n : Nat) : List Int :=
  l ++ List.replicate (n - l.length) 0

theorem padTo_length (l : List Int) (n : Nat) (h : l.length ≤ n) :
    (padTo l n).length = n := by
  simp [padTo]
  omega

theorem crl_padTo (a b : List Int) (n : Nat) :
    compareRankLists (padTo a n) (padTo b n) = compareRankLists a b := by
  simp [padTo, crl_append_zeros, crl_append_zeros_right]

theorem crl_eq_of_zero_eqlen (a b : List Int) (hl : a.length = b.length)
    (h : compareRankLists a b = 0) : a = b := by
  induction a generalizing b with
  | nil => cases b with
    | nil => rfl
    | cons y bs => simp at hl
  | cons x as ih =>
    cases b with
    | nil => simp at hl
    | cons y bs =>
      simp only [compareRankLists] at h
      rcases lt_trichotomy x y with hxy | hxy | hxy
      · simp [hxy, not_lt.mpr (le_of_lt hxy)] at h
      · subst hxy
        simp only [lt_irrefl, if_false, gt_iff_lt, if_neg (lt_irrefl x)] at h
        have := ih bs (by simpa using hl) (by simpa using h)
        rw [this]
      · simp [hxy, not_lt.mpr (le_of_lt hxy)] at h

theorem crl_le_trans_eqlen (a b c : List Int)
    (hab : a.length = b.length) (hbc : b.length = c.length)
    (h1 : compareRankLists a b ≤ 0) (h2 : compareRankLists b c ≤ 0) :
    compareRankLists a c ≤ 0 := by
  induction a generalizing b c with
  | nil =>
    cases b with
    | nil => cases c with
      | nil => simp [compareRankLists]
      | cons z cs => simp at hbc
    | cons y bs => simp at hab
  | cons x as ih =>
    cases b with
    | nil => simp at hab
    | cons y bs =>
      cases c with
      | nil => simp at hbc
      | cons z cs =>
        simp only [compareRankLists] at h1 h2 ⊢
        have hxy : x ≤ y := by
          by_contra hc
          push_neg at hc
          simp [hc] at h1
        have hyz : y ≤ z := by
          by_contra hc
          push_neg at hc
          simp [hc] at h2
        have hxz : ¬ x > z := not_lt.mpr (le_trans hxy hyz)
        rw [if_neg hxz]
        by_cases hlt : x < z
        · simp [hlt]
        · rw [if_neg hlt]
          have hxez : x = z := le_antisymm (le_trans hxy hyz) (not_lt.mp hlt)
          have hxey : x = y := le_antisymm hxy (by omega)
          subst hxey
          have hyez : x = z := hxez
          subst hyez
          rw [if_neg (lt_irrefl x), if_neg (lt_irrefl x)] at h1 h2
          exact ih bs cs (by simpa using hab) (by simpa using hbc)
            (by simpa using h1) (by simpa using h2)

theorem crl_le_trans (a b c : List Int)
    (h1 : compareRankLists a b ≤ 0) (h2 : compareRankLists b c ≤ 0) :
    compareRankLists a c ≤ 0 := by
  set n := max a.length (max b.length c.length) with hn
  have ha : a.length ≤ n := le_max_left _ _
  have hb : b.length ≤ n := le_trans (le_max_left _ _) (le_max_right _ _)
  have hc : c.length ≤ n := le_trans (le_max_right _ _) (le_max_right _ _)
  rw [← crl_padTo a b n] at h1
  rw [← crl_padTo b c n] at h2
  rw [← crl_padTo a c n]
  exact crl_le_trans_eqlen _ _ _
    (by rw [padTo_length _ _ ha, padTo_length _ _ hb])
    (by rw [padTo_length _ _ hb, padTo_length _ _ hc]) h1 h2

theorem crl_congr_left (a b c : List Int)
    (h : compareRankLists a b = 0) :
    compareRankLists a c = compareRankLists b c := by
  set n := max a.length (max b.length c.length) with hn
  have ha : a.length ≤ n := le_max_left _ _
  have hb : b.length ≤ n := le_trans (le_max_left _ _) (le_max_right _ _)
  have heq : padTo a n = padTo b n := by
    apply crl_eq_of_zero_eqlen
    · rw [padTo_length _ _ ha, padTo_length _ _ hb]
    · rw [crl_padTo]; exact h
  rw [← crl_padTo a c n, ← crl_padTo b c n, heq]

/-! ### Order lemmas for `compareHands` -/

theorem ch_self (a : EvaluatedHand) : compareHands a a = 0 := by
  simp [compareHands, crl_self]

theorem ch_neg (a b : EvaluatedHand) : compareHands a b = -compareHands b a := by
  unfold compareHands
  rcases lt_trichotomy a.category b.category with h | h | h
  · simp [h, not_lt.mpr (le_of_lt h), lt_asymm h]
  · simp [h, lt_irrefl, crl_neg a.ranks b.ranks]
  · simp [h, not_lt.mpr (le_of_lt h), lt_asymm h]

theorem ch_cases (a b : EvaluatedHand) :
    compareHands a b = 1 ∨ compareHands a b = 0 ∨ compareHands a b = -1 := by
  unfold compareHands
  split
  · exact Or.inl rfl
  · split
    · exact Or.inr (Or.inr rfl)
    · exact crl_cases _ _

theorem ch_le_trans (a b c : EvaluatedHand)
    (h1 : compareHands a b ≤ 0) (h2 : compareHands b c ≤ 0) :
    compareHands a c ≤ 0 := by
  unfold compareHands at h1 h2 ⊢
  have hab : a.category ≤ b.category := by
    by_contra hc
    push_neg at hc
    simp [hc] at h1
  have hbc : b.category ≤ c.category := by
    by_contra hc
    push_neg at hc
    simp [hc] at h2
  rw [if_neg (not_lt.mpr (le_trans hab hbc) : ¬ a.category > c.category)]
  by_cases hlt : a.category < c.category
  · simp [hlt]
  · rw [if_neg hlt]
    have hac : a.category = c.category := le_antisymm (le_trans hab hbc) (not_lt.mp hlt)
    have h1' : a.category = b.category := le_antisymm hab (by omega)
    have h2' : b.category = c.category := by omega
    rw [if_neg (by omega : ¬ a.category > b.category), if_neg (by omega : ¬ a.category < b.category)] at h1
    rw [if_neg (by omega : ¬ b.category > c.category), if_neg (by omega : ¬ b.category < c.category)] at h2
    exact crl_le_trans _ _ _ h1 h2

theorem ch_zero_trans (a b c : EvaluatedHand)
    (h1 : compareHands a b = 0) (h2 : compareHands b c = 0) :
    compareHands a c = 0 := by
  unfold compareHands at h1 h2 ⊢
  have hab : a.category = b.category := by
    rcases lt_trichotomy a.category b.category with h | h | h
    · simp [h, not_lt.mpr (le_of_lt h)] at h1
    · exact h
    · simp [h, not_lt.mpr (le_of_lt h)] at h1
  have hbc : b.category = c.category := by
    rcases lt_trichotomy b.category c.category with h | h | h
    · simp [h, not_lt.mpr (le_of_lt h)] at h2
    · exact h
    · simp [h, not_lt.mpr (le_of_lt h)] at h2
  rw [if_neg (by omega : ¬ a.category > c.category), if_neg (by omega : ¬ a.category < c.category)]
  rw [if_neg (by omega : ¬ a.category > b.category), if_neg (by omega : ¬ a.category < b.category)] at h1
  rw [if_neg (by omega : ¬ b.category > c.category), if_neg (by omega : ¬ b.category < c.category)] at h2
  rw [crl_congr_left _ _ _ h1]
  exact h2

theorem ch_congr_left (a b c : EvaluatedHand) (h : compareHands a b = 0) :
    compareHands a c = compareHands b c := by
  unfold compareHands at h ⊢
  have hab : a.category = b.category := by
    rcases lt_trichotomy a.category b.category with hx | hx | hx
    · simp [hx, not_lt.mpr (le_of_lt hx)] at h
    · exact hx
    · simp [hx, not_lt.mpr (le_of_lt hx)] at h
  rw [if_neg (by omega : ¬ a.category > b.category), if_neg (by omega : ¬ a.category < b.category)] at h
  rw [hab, crl_congr_left _ _ _ h]

/-! ### The hand evaluator -/

/-- A stable descending insertion: `x` is placed before the first
element it strictly exceeds under `key`, so elements with equal keys
keep their relative order (JS `Array.prototype.sort` is stable). -/
def insertDescBy (key : α → Int) (x : α) : List α → List α
  | [] => [x]
  | y :: ys => if key x > key y then x :: y :: ys else y :: insertDescBy key x ys

/-- Sort a list descending by `key` (the JS `sort((a, b) => b - a)`). -/
def sortDescBy (key : α → Int) (l : List α) : List α :=
  l.foldl (fun acc x => insertDescBy key x acc) []

/-- The `seen` set walk of `getUniqueRanksDesc` (and the
insertion-order key iteration of a JS `Map`): keep the first
occurrence of each value. -/
def uniqueInOrderGo (seen : List Int) : List Int → List Int
  | [] => []
  | x :: xs =>
    if seen.contains x then uniqueInOrderGo seen xs
    else x :: uniqueInOrderGo (x :: seen) xs

def uniqueInOrder (l : List Int) : List Int := uniqueInOrderGo [] l

/-- Same walk for suit strings. -/
def uniqueSuitsInOrderGo (seen : List String) : List String → List String
  | [] => []
  | x :: xs =>
    if seen.contains x then uniqueSuitsInOrderGo seen xs
    else x :: uniqueSuitsInOrderGo (x :: seen) xs

def uniqueSuitsInOrder (l : List String) : List String :=
  uniqueSuitsInOrderGo [] l

/-- `getUniqueRanksDesc` of `hand-evaluator.ts`: sort descending by
rank, then keep the first occurrence of each rank. -/
def getUniqueRanksDesc (cards : List NormalizedCard) : List Int :=
  uniqueInOrder ((sortDescBy (fun c => c.rank) cards).map (fun c => c.rank))

/-- The body of the `for` loop of `findStraightHigh`, iterating the
index `i` from 1 while `i < ranks.length`; `fuel` counts the remaining
iterations. -/
def findStraightHighGo (ranks : List Int) : Nat → Nat → Nat → Option Int → Option Int
  | 0, _, _, best => best
  | fuel + 1, i, run, best =>
      let prev := ranks.getD (i - 1) 0
      let cur := ranks.getD i 0
      let run2 := if prev - 1 = cur then run + 1 else 1
      let best2 :=
        if run2 ≥ 5 then
          let high := ranks.getD (i - 4) 0
          match best with
          | none => some high
          | some b => if high > b then some high else some b
        else best
      findStraightHighGo ranks fuel (i + 1) run2 best2

/-- `findStraightHigh` of `hand-evaluator.ts`: given the distinct ranks
in descending order, the highest straight top card, with wheel support
(an Ace also counts as a trailing 1). -/
def findStraightHigh (u : List Int) : Option Int :=
  if u.length < 5 then none
  else
    let ranks := if u.contains 14 then u ++ [1] else u
    findStraightHighGo ranks (ranks.length - 1) 1 1 none

/-- `straightRanks` of `hand-evaluator.ts` (the `r === 1 ? 1 : r` map is
the identity). -/
def straightRanks (high : Int) : List Int :=
  [high, high - 1, high - 2, high - 3, high - 4]

/-- `rankLabel` of `hand-evaluator.ts`. -/
def rankLabel (r : Int) : String :=
  (RANK_NAME r).getD (toString r)

/-- `describe` of `hand-evaluator.ts`, producing `(name, description)`.
Out-of-range list reads use 0, the JS `undefined` never occurring on
the rank lists the evaluator builds. -/
def describe (category : Nat) (ranks : List Int) : String × String :=
  if category = HandCategory.STRAIGHT_FLUSH then
    let isRoyal := ranks.getD 0 0 = 14 ∧ ranks.getD 4 0 = 10
    let highName := rankLabel (if ranks.getD 0 0 = 1 then 5 else ranks.getD 0 0)
    if isRoyal then ("Royal Flush", "Royal Flush")
    else ("Straight Flush", "Straight Flush, " ++ highName ++ " high")
  else if category = HandCategory.FOUR_OF_A_KIND then
    ("Four of a Kind", "Four of a Kind, " ++ rankLabel (ranks.getD 0 0) ++ "s")
  else if category = HandCategory.FULL_HOUSE then
    ("Full House", rankLabel (ranks.getD 0 0) ++ "s full of " ++ rankLabel (ranks.getD 1 0) ++ "s")
  else if category = HandCategory.FLUSH then
    ("Flush", "Flush, " ++ rankLabel (ranks.getD 0 0) ++ " high")
  else if category = HandCategory.STRAIGHT then
    ("Straight", "Straight, " ++
      rankLabel (if ranks.getD 0 0 = 1 then 5 else ranks.getD 0 0) ++ " high")
  else if category = HandCategory.THREE_OF_A_KIND then
    ("Three of a Kind", "Three of a Kind, " ++ rankLabel (ranks.getD 0 0) ++ "s")
  else if category = HandCategory.TWO_PAIR then
    ("Two Pair", rankLabel (ranks.getD 0 0) ++ "s and " ++ rankLabel (ranks.getD 1 0) ++ "s")
  else if category = HandCategory.ONE_PAIR then
    ("One Pair", "Pair of " ++ rankLabel (ranks.getD 0 0) ++ "s")
  else
    ("High Card", "High Card, " ++ rankLabel (ranks.getD 0 0))

/-- The number of cards of a given rank (the `rankCounts` map). -/
def countRank (cards : List NormalizedCard) (r : Int) : Nat :=
  (cards.filter (fun c => c.rank = r)).length

/-- `evaluateHand` of `hand-evaluator.ts`.  The `rankCounts` /
`suitCounts` JS maps are modelled by counting over the card list, with
key iteration in first-occurrence (insertion) order. -/
def evaluateHand (holeCards communityCards : List Card) :
    Except String EvaluatedHand := do
  let allCards := holeCards ++ communityCards
  if allCards.length < 5 then
    throw "At least 5 cards are required to evaluate a hand"
  let cards ← allCards.mapM normalizeCard
  let uniqueRanksDesc := getUniqueRanksDesc cards
  let ranksInOrder := uniqueInOrder (cards.map (fun c => c.rank))
  let quads := sortDescBy id (ranksInOrder.filter (fun r => countRank cards r = 4))
  let trips := sortDescBy id (ranksInOrder.filter (fun r => countRank cards r = 3))
  let pairs := sortDescBy id (ranksInOrder.filter (fun r => countRank cards r = 2))
  let suitsInOrder := uniqueSuitsInOrder (cards.map (fun c => c.suit))
  let flushSuitCards :=
    (suitsInOrder.map (fun s => cards.filter (fun c => c.suit = s))).filter
      (fun l => l.length ≥ 5)
  let bf :=
    flushSuitCards.foldl
      (fun (acc : Option (List Int) × Option Int) suitedCards =>
        let sorted := sortDescBy (fun c => c.rank) suitedCards
        let ranks := sorted.map (fun c => c.rank)
        let topFive := ranks.take 5
        let best1 :=
          match acc.1 with
          | none => some topFive
          | some b => if compareRankLists topFive b > 0 then some topFive else some b
        let sfHigh := findStraightHigh (getUniqueRanksDesc sorted)
        let best2 :=
          match sfHigh, acc.2 with
          | none, c => c
          | some h, none => some h
          | some h, some c => if h > c then some h else some c
        (best1, best2))
      (none, none)
  let bestFlushRanks := bf.1
  let straightFlushHigh := bf.2
  let straightHigh := findStraightHigh uniqueRanksDesc
  match straightFlushHigh with
  | some high =>
    let ranks := straightRanks high
    let d := describe HandCategory.STRAIGHT_FLUSH ranks
    return ⟨HandCategory.STRAIGHT_FLUSH, ranks, d.1, d.2⟩
  | none =>
  match quads with
  | q :: _ =>
    let kicker := (uniqueRanksDesc.find? (fun r => r ≠ q)).getD 0
    let ranks := [q, kicker]
    let d := describe HandCategory.FOUR_OF_A_KIND ranks
    return ⟨HandCategory.FOUR_OF_A_KIND, ranks, d.1, d.2⟩
  | [] =>
  if trips.length > 0 ∧ (pairs.length > 0 ∨ trips.length > 1) then
    let tripRank := trips.getD 0 0
    let pairRank := pairs.headD (trips.getD 1 0)
    let ranks := [tripRank, pairRank]
    let d := describe HandCategory.FULL_HOUSE ranks
    return ⟨HandCategory.FULL_HOUSE, ranks, d.1, d.2⟩
  else
  match bestFlushRanks with
  | some ranks =>
    let d := describe HandCategory.FLUSH ranks
    return ⟨HandCategory.FLUSH, ranks, d.1, d.2⟩
  | none =>
  match straightHigh with
  | some high =>
    let ranks := straightRanks high
    let d := describe HandCategory.STRAIGHT ranks
    return ⟨HandCategory.STRAIGHT, ranks, d.1, d.2⟩
  | none =>
  match trips with
  | t :: _ =>
    let kickers := (uniqueRanksDesc.filter (fun r => r ≠ t)).take 2
    let ranks := t :: kickers
    let d := describe HandCategory.THREE_OF_A_KIND ranks
    return ⟨HandCategory.THREE_OF_A_KIND, ranks, d.1, d.2⟩
  | [] =>
  match pairs with
  | p1 :: p2 :: _ =>
    let kicker := (uniqueRanksDesc.find? (fun r => r ≠ p1 ∧ r ≠ p2)).getD 0
    let ranks := [p1, p2, kicker]
    let d := describe HandCategory.TWO_PAIR ranks
    return ⟨HandCategory.TWO_PAIR, ranks, d.1, d.2⟩
  | [p] =>
    let kickers := (uniqueRanksDesc.filter (fun r => r ≠ p)).take 3
    let ranks := p :: kickers
    let d := describe HandCategory.ONE_PAIR ranks
    return ⟨HandCategory.ONE_PAIR, ranks, d.1, d.2⟩
  | [] =>
    let highRanks := uniqueRanksDesc.take 5
    let d := describe HandCategory.HIGH_CARD highRanks
    return ⟨HandCategory.HIGH_CARD, highRanks, d.1, d.2⟩

/-- `PlayerHand` of `hand-evaluator.ts`. -/
structure PlayerHand where
  userId : Nat
  hand : EvaluatedHand
deriving DecidableEq, Repr

/-- The loop body of `determineWinners`: a strictly better hand resets
the winner list, a tie joins it, a worse hand is ignored. -/
def dwStep (acc : EvaluatedHand × List PlayerHand) (ph : PlayerHand) :
    EvaluatedHand × List PlayerHand :=
  if compareHands ph.hand acc.1 > 0 then (ph.hand, [ph])
  else if compareHands ph.hand acc.1 = 0 then (acc.1, acc.2 ++ [ph])
  else acc

/-- `determineWinners` of `hand-evaluator.ts`: the running-maximum fold
keeping every hand that ties the best seen so far. -/
def determineWinners (playerHands : List PlayerHand) :
    Except String (List Nat × List EvaluatedHand) :=
  match playerHands with
  | [] => .error "No player hands provided for showdown"
  | first :: rest =>
    let result := rest.foldl dwStep (first.hand, [first])
    .ok (result.2.map (fun p => p.userId), result.2.map (fun p => p.hand))

/-! ### Table state: `game_players` rows and the `games` row -/

/-- A `game_players` row joined with the player cards.  `betAmount` is
the `bet_amount` column, where `-1` marks a folded player;
`chipCount` is `player_money`; `position` is nullable; `hasActed` is
the `has_acted` column added by the second migration.  The list order
of `GameState.players` is the `GET_PLAYERS_WITH_STATS` order
(`ORDER BY position NULLS LAST, joined_at ASC`). -/
structure GamePlayer where
  userId : Nat
  position : Option Int
  chipCount : Int
  betAmount : Int
  hasActed : Bool
  role : String
  holeCards : List Card
deriving DecidableEq, Repr

/-- The `games` row together with its dependent tables. -/
structure GameState where
  currentTurn : Option Nat
  potMoney : Int
  state : String
  players : List GamePlayer
  communityCards : List Card
  deck : List Card
deriving DecidableEq, Repr

/-- First row matching a user id (a keyed SQL lookup). -/
def findPlayer (st : GameState) (userId : Nat) : Option GamePlayer :=
  st.players.find? (fun p => p.userId = userId)

/-- `getCurrentTurn`: the `current_turn_user_id` column. -/
def getCurrentTurn (st : GameState) : Option Nat :=
  st.currentTurn

/-- `getPlayerPosition`: `GET_PLAYER_POSITION` with the `?? null`
coalescing of a missing row or a NULL position. -/
def getPlayerPosition (st : GameState) (userId : Nat) : Option Int :=
  (findPlayer st userId).bind (fun p => p.position)

/-- `getPlayerBet`: `GET_PLAYER_BET` with `?? 0` for a missing row. -/
def getPlayerBet (st : GameState) (userId : Nat) : Int :=
  ((findPlayer st userId).map (fun p => p.betAmount)).getD 0

/-- `getCurrentBet`: `GET_CURRENT_BET`, i.e.
`SELECT MAX(bet_amount) … WHERE bet_amount > 0`, with `?? 0` when the
maximum is NULL. -/
def getCurrentBet (st : GameState) : Int :=
  match (st.players.map (fun p => p.betAmount)).filter (fun b => b > 0) with
  | [] => 0
  | x :: xs => xs.foldl max x

/-- `updatePlayerBet`: `UPDATE game_players SET bet_amount = $3`. -/
def updatePlayerBet (st : GameState) (userId : Nat) (amount : Int) : GameState :=
  { st with
    players := st.players.map (fun p =>
      if p.userId = userId then { p with betAmount := amount } else p) }

/-- `UPDATE_PLAYER_CHIPS`: `SET player_money = player_money + $3`.
`deductChips` calls it with the negated amount, `addChips` with the
amount itself. -/
def updatePlayerChips (st : GameState) (userId : Nat) (delta : Int) : GameState :=
  { st with
    players := st.players.map (fun p =>
      if p.userId = userId then { p with chipCount := p.chipCount + delta } else p) }

/-- `addToPot`: `UPDATE games SET pot_money = pot_money + $2`, returning
the new pot. -/
def addToPot (st : GameState) (amount : Int) : GameState × Int :=
  ({ st with potMoney := st.potMoney + amount }, st.potMoney + amount)

/-- `setCurrentTurn`: `SET_CURRENT_TURN`. -/
def setCurrentTurn (st : GameState) (userId : Nat) : GameState :=
  { st with currentTurn := some userId }

/-- `endGame`: `END_GAME`, `SET state = 'game-over'`. -/
def endGame (st : GameState) : GameState :=
  { st with state := "game-over" }

/-- `resetBets`: `RESET_BETS`, `SET bet_amount = 0 WHERE bet_amount >= 0`
— folded players (bet `-1`) keep their marker. -/
def resetBets (st : GameState) : GameState :=
  { st with
    players := st.players.map (fun p =>
      if p.betAmount ≥ 0 then { p with betAmount := 0 } else p) }

/-- Modelled from the spec: `Games.resetHasActed`, called by
`round-service.ts` between streets, is absent from the available
`db/games` module (only the caller and the `has_acted` column migration
are present).  The spec resets the flag for everyone at a street
change: "all `has_acted_this_round = false`". -/
def resetHasActed (st : GameState) : GameState :=
  { st with players := st.players.map (fun p => { p with hasActed := false }) }

/-- One comparison step of the position ordering: keep the row with
the strictly smaller position, the earlier row on ties. -/
def pickMinPos (acc : Option GamePlayer) (q : GamePlayer) : Option GamePlayer :=
  match acc with
  | none => some q
  | some r => if (q.position.getD 0) < (r.position.getD 0) then some q else acc

/-- The first row of an `ORDER BY position ASC` (Postgres default:
NULLS LAST) over a candidate list; among equal keys the stored row
order stands in for the unspecified database order. -/
def firstByPositionAsc (l : List GamePlayer) : Option GamePlayer :=
  match (l.filter (fun p => p.position.isSome)).foldl pickMinPos none with
  | some p => some p
  | none => l.head?

/-- `GET_NEXT_PLAYER`: first non-folded player strictly after the given
position (rows with NULL position are excluded by `position > $2`). -/
def GET_NEXT_PLAYER (st : GameState) (pos : Int) : Option Nat :=
  (firstByPositionAsc (st.players.filter (fun p =>
    decide (p.betAmount ≥ 0) && (match p.position with
      | some q => decide (q > pos)
      | none => false)))).map (fun p => p.userId)

/-- `GET_FIRST_PLAYER`: first non-folded player by position. -/
def GET_FIRST_PLAYER (st : GameState) : Option Nat :=
  (firstByPositionAsc (st.players.filter (fun p => p.betAmount ≥ 0))).map
    (fun p => p.userId)

/-- `advanceTurn` of `db/games/index.ts`: next non-folded player after
the current position, wrapping to the first non-folded player, and if
none exists at all, returning the current player without touching
`current_turn_user_id`. -/
def advanceTurn (st : GameState) : Except String (GameState × Nat) :=
  match getCurrentTurn st with
  | none => .error "No current turn set"
  | some currentTurn =>
    match getPlayerPosition st currentTurn with
    | none => .error "Current turn player has no position"
    | some currentPosition =>
      match GET_NEXT_PLAYER st currentPosition with
      | some nxt => .ok (setCurrentTurn st nxt, nxt)
      | none =>
        match GET_FIRST_PLAYER st with
        | some nxt => .ok (setCurrentTurn st nxt, nxt)
        | none => .ok (st, currentTurn)

/-! ### Betting service -/

/-- `BettingResult` of `betting-service.ts` (success is implicit in the
`Except.ok` constructor). -/
structure BettingResult where
  action : String
  amount : Option Int := none
  newPot : Option Int := none
  newChips : Option Int := none
  nextPlayerId : Option Nat := none
deriving DecidableEq, Repr

/-- `validateTurnWithDb`. -/
def validateTurn (st : GameState) (userId : Nat) : Except String Unit :=
  match getCurrentTurn st with
  | none => .error "Game has not started"
  | some currentTurn =>
    if currentTurn ≠ userId then .error "Not your turn"
    else .ok ()

/-- `getPlayerChips`: the `chip_count` of the stats row. -/
def getPlayerChips (st : GameState) (userId : Nat) : Except String Int :=
  match findPlayer st userId with
  | none => .error "Player not found in game"
  | some p => .ok p.chipCount

/-- `fold` of `betting-service.ts`: mark the player folded
(`bet_amount = -1`) and advance the turn. -/
def fold (st : GameState) (userId : Nat) :
    Except String (GameState × BettingResult) := do
  let _ ← validateTurn st userId
  let st1 := updatePlayerBet st userId (-1)
  let adv ← advanceTurn st1
  return (adv.1, { action := "fold", nextPlayerId := some adv.2 })

/-- `check` of `betting-service.ts`: legal only when the player already
matches the current bet. -/
def check (st : GameState) (userId : Nat) :
    Except String (GameState × BettingResult) := do
  let _ ← validateTurn st userId
  let currentBet := getCurrentBet st
  let playerBet := getPlayerBet st userId
  if currentBet > playerBet then
    throw ("Cannot check - must call $" ++ toString (currentBet - playerBet))
  let adv ← advanceTurn st
  return (adv.1, { action := "check", nextPlayerId := some adv.2 })

/-- `call` of `betting-service.ts`. -/
def call (st : GameState) (userId : Nat) :
    Except String (GameState × BettingResult) := do
  let _ ← validateTurn st userId
  let currentBet := getCurrentBet st
  let playerBet := getPlayerBet st userId
  let callAmount := currentBet - playerBet
  if callAmount ≤ 0 then
    throw "Nothing to call - use check instead"
  let playerChips ← getPlayerChips st userId
  if playerChips < callAmount then
    throw ("Not enough chips to call. Have $" ++ toString playerChips ++
      ", need $" ++ toString callAmount ++ ". Use all-in instead.")
  let st1 := updatePlayerChips st userId (-callAmount)
  let newChips := ((findPlayer st1 userId).map (fun p => p.chipCount)).getD 0
  let st2 := updatePlayerBet st1 userId currentBet
  let st3 := (addToPot st2 callAmount).1
  let newPot := (addToPot st2 callAmount).2
  let adv ← advanceTurn st3
  return (adv.1,
    { action := "call", amount := some callAmount, newPot := some newPot,
      newChips := some newChips, nextPlayerId := some adv.2 })

/-- `raise` of `betting-service.ts`: `raiseToAmount` is the total to
raise TO; the only lower bound enforced is being strictly above the
current bet. -/
def raise (st : GameState) (userId : Nat) (raiseToAmount : Int) :
    Except String (GameState × BettingResult) := do
  let _ ← validateTurn st userId
  let currentBet := getCurrentBet st
  let playerBet := getPlayerBet st userId
  if raiseToAmount ≤ currentBet then
    throw ("Raise must be more than current bet of $" ++ toString currentBet)
  let chipsNeeded := raiseToAmount - playerBet
  let playerChips ← getPlayerChips st userId
  if playerChips < chipsNeeded then
    throw ("Not enough chips to raise. Have $" ++ toString playerChips ++
      ", need $" ++ toString chipsNeeded ++ ". Use all-in instead.")
  let st1 := updatePlayerChips st userId (-chipsNeeded)
  let newChips := ((findPlayer st1 userId).map (fun p => p.chipCount)).getD 0
  let st2 := updatePlayerBet st1 userId raiseToAmount
  let st3 := (addToPot st2 chipsNeeded).1
  let newPot := (addToPot st2 chipsNeeded).2
  let adv ← advanceTurn st3
  return (adv.1,
    { action := "raise", amount := some raiseToAmount, newPot := some newPot,
      newChips := some newChips, nextPlayerId := some adv.2 })

/-- `allIn` of `betting-service.ts`: bet the whole remaining stack. -/
def allIn (st : GameState) (userId : Nat) :
    Except String (GameState × BettingResult) := do
  let _ ← validateTurn st userId
  match findPlayer st userId with
  | none => throw "Player not found in game"
  | some player =>
    let remainingChips := player.chipCount
    let currentPlayerBet := player.betAmount
    if remainingChips ≤ 0 then
      throw "No chips remaining to bet"
    let newBetAmount := currentPlayerBet + remainingChips
    let st1 := updatePlayerChips st userId (-remainingChips)
    let newChips := ((findPlayer st1 userId).map (fun p => p.chipCount)).getD 0
    let st2 := updatePlayerBet st1 userId newBetAmount
    let st3 := (addToPot st2 remainingChips).1
    let newPot := (addToPot st2 remainingChips).2
    let adv ← advanceTurn st3
    return (adv.1,
      { action := "all-in", amount := some remainingChips, newPot := some newPot,
        newChips := some newChips, nextPlayerId := some adv.2 })

/-- `db.tx` rollback semantics: a transaction that throws leaves the
database exactly as it was; one that commits yields the new state. -/
def txApply (act : GameState → Except String (GameState × α)) (st : GameState) :
    GameState :=
  match act st with
  | .ok (st2, _) => st2
  | .error _ => st

/-! ### Round service -/

/-- The body of `isBettingRoundComplete` over the filtered `active`
list: everyone acted, and everyone matches the maximum bet (`Math.max`
over the non-empty active bets is the left fold of `max`). -/
def isBettingRoundCompleteActive : List GamePlayer → Bool
  | [] => true
  | a :: rest =>
    if ¬ ((a :: rest).all (fun p => p.hasActed)) then false
    else (a :: rest).all (fun p =>
      p.betAmount = (rest.map (fun q => q.betAmount)).foldl max a.betAmount)

/-- `isBettingRoundComplete` of `round-service.ts`: every non-folded
player (`current_bet >= 0`) has acted and matches the maximum bet; an
empty active list counts as complete. -/
def isBettingRoundComplete (players : List GamePlayer) : Bool :=
  isBettingRoundCompleteActive (players.filter (fun p => p.betAmount ≥ 0))

/-- `areAllBetsEqual` of `db/games/index.ts`:
`COUNT(DISTINCT bet_amount) <= 1` over the non-folded rows. -/
def areAllBetsEqual (players : List GamePlayer) : Bool :=
  (((players.filter (fun p => p.betAmount ≥ 0)).map
    (fun p => p.betAmount)).dedup).length ≤ 1

/-- `dealCommunityCards` of `round-service.ts`: check the expected
state, draw from the top of the deck (`GET_CARDS_FROM_DECK` only
selects — the source never marks community cards as dealt, so the deck
rows are left untouched), append to the community cards, advance the
state, reset bets and the acted flags. -/
def dealCommunityCards (st : GameState) (expectedState nextState : String)
    (count : Nat) : Except String GameState := do
  if st.state ≠ expectedState then
    throw ("Invalid state transition: expected " ++ expectedState ++
      ", got " ++ st.state)
  let cards := st.deck.take count
  if cards.length ≠ count then
    throw "Deck exhausted while dealing community cards"
  let st1 := { st with communityCards := st.communityCards ++ cards,
                       state := nextState }
  let st2 := resetBets st1
  let st3 := resetHasActed st2
  return st3

def dealFlop (st : GameState) : Except String GameState :=
  dealCommunityCards st "pre-flop" "flop" 3

def dealTurn (st : GameState) : Except String GameState :=
  dealCommunityCards st "flop" "turn" 1

def dealRiver (st : GameState) : Except String GameState :=
  dealCommunityCards st "turn" "river" 1

/-! ### Showdown service -/

/-- `ShowdownResult` of `showdown-service.ts`. -/
structure ShowdownResult where
  winners : List Nat
  winningHand : String
  potShare : Int
  payouts : List (Nat × Int)
deriving DecidableEq, Repr

/-- `calculatePayouts` of `showdown-service.ts`: floor share to every
winner, one extra chip to each of the first `pot % winners` entries of
the winner list (`Math.floor` is `Int.fdiv`, the JS `%` is
`Int.tmod`). -/
def calculatePayouts (pot : Int) (winnerIds : List Nat) : List (Nat × Int) :=
  if winnerIds.length = 0 then []
  else
    let baseShare := Int.fdiv pot winnerIds.length
    let remainder := Int.tmod pot winnerIds.length
    winnerIds.enum.map (fun p =>
      (p.2, baseShare + if (p.1 : Int) < remainder then 1 else 0))

/-- The per-player body of the showdown loop: reject a short hole-card
list, then evaluate hole plus community cards. -/
def evalPlayerHand (communityCards : List Card) (p : GamePlayer) :
    Except String PlayerHand := do
  if p.holeCards.length < 2 then
    throw ("Player " ++ toString p.userId ++ " does not have 2 hole cards")
  let evaluated ← evaluateHand p.holeCards communityCards
  return (⟨p.userId, evaluated⟩ : PlayerHand)

/-- One payout application: `Games.addChips` guarded by `amount > 0`. -/
def applyPayout (s : GameState) (payout : Nat × Int) : GameState :=
  if payout.2 > 0 then updatePlayerChips s payout.1 payout.2 else s

/-- `runShowdown` of `showdown-service.ts`: evaluate every non-folded
player against the community cards, split the single `pot_money` among
the holders of the best hand, zero the pot and end the game.  No side
pots are constructed. -/
def runShowdown (st : GameState) : Except String (GameState × ShowdownResult) := do
  if st.communityCards.length < 3 then
    throw "Cannot run showdown without community cards on the table"
  let activePlayers := st.players.filter (fun p => p.betAmount ≥ 0)
  if activePlayers.length = 0 then
    throw "No active players remaining for showdown"
  let playerHands ← activePlayers.mapM (evalPlayerHand st.communityCards)
  let (winnerIds, winningHands) ← determineWinners playerHands
  let winningHandDescr := ((winningHands.head?).map
    (fun h => h.description)).getD "Unknown hand"
  let payouts := calculatePayouts st.potMoney winnerIds
  let st1 := payouts.foldl applyPayout st
  let st2 := if st.potMoney > 0 then (addToPot st1 (-st.potMoney)).1 else st1
  let st3 := endGame st2
  return (st3,
    { winners := winnerIds, winningHand := winningHandDescr,
      potShare := ((payouts.head?).map (fun p => p.2)).getD 0,
      payouts := payouts })

/-! ### Route pipeline (`root.ts`) -/

/-- `checkAndAdvanceRound` of `routes/root.ts`: after every accepted
betting action, when the betting round is complete, deal the next
street or run the showdown; otherwise do nothing.  States other than
the four street names fall through the `switch`. -/
def checkAndAdvanceRound (st : GameState) : Except String GameState := do
  if ¬ isBettingRoundComplete st.players then
    return st
  if st.state = "pre-flop" then dealFlop st
  else if st.state = "flop" then dealTurn st
  else if st.state = "turn" then dealRiver st
  else if st.state = "river" then (runShowdown st).map (fun r => r.1)
  else return st

/-! ### Specification-side definitions (for refinement comparison)

The next definitions follow the words of the specification, not the
source; they exist only to be compared against the embedded code. -/

/-- Spec, section 4.4: sort the eligible contribution levels ascending
into distinct thresholds `0 < t1 < t2 < … < tk`. -/
def specThresholds (committed : List (Nat × Int)) (eligible : List Nat) : List Int :=
  uniqueInOrder (sortDescBy (fun x => -x)
    (((committed.filter (fun p => eligible.contains p.1)).map (fun p => p.2)).filter
      (fun v => v > 0)))

/-- Spec, section 4.4: one pot layer per threshold.  Layer i holds
`sum over all seats of min(committed, ti) - min(committed, t(i-1))` and
is contested by the eligible seats with `committed >= ti`. -/
def specLayersGo (committed : List (Nat × Int)) (eligible : List Nat)
    (prev : Int) : List Int → List (Int × List Nat)
  | [] => []
  | t :: ts =>
    ((committed.map (fun p => min p.2 t - min p.2 prev)).sum,
      (committed.filter (fun p => eligible.contains p.1 && p.2 ≥ t)).map
        (fun p => p.1)) :: specLayersGo committed eligible t ts

/-- Spec, section 4.4: the full main-pot / side-pot decomposition of a
contribution vector. -/
def specSidePots (committed : List (Nat × Int)) (eligible : List Nat) :
    List (Int × List Nat) :=
  specLayersGo committed eligible 0 (specThresholds committed eligible)

/-- Spec, section 4.4: remainder chips go in full to the single winner
seated earliest clockwise from the dealer button; the argument lists
the tied winners in clockwise order starting from the button. -/
def specButtonPayouts (pot : Int) (winnersClockwiseFromButton : List Nat) :
    List (Nat × Int) :=
  match winnersClockwiseFromButton with
  | [] => []
  | w :: ws =>
    let n : Int := (w :: ws).length
    let base := Int.fdiv pot n
    let rem := Int.tmod pot n
    (w, base + rem) :: ws.map (fun u => (u, base))

/-! ### Generic helper lemmas -/

theorem except_bind_ok (a : α) (f : α → Except ε β) :
    (Except.ok a >>= f) = f a := rfl

theorem except_bind_error (e : ε) (f : α → Except ε β) :
    ((Except.error e : Except ε α) >>= f) = .error e := rfl

theorem except_pure_eq (a : α) : (pure a : Except ε α) = .ok a := rfl

theorem except_throw_eq (e : ε) : (throw e : Except ε α) = .error e := rfl

theorem list_mapM_ok_forall₂ (f : α → Except ε β) (l : List α) (out : List β)
    (h : l.mapM f = .ok out) :
    List.Forall₂ (fun a b => f a = .ok b) l out := by
  induction l generalizing out with
  | nil =>
    simp only [List.mapM_nil, except_pure_eq] at h
    injection h with h
    subst h
    exact List.Forall₂.nil
  | cons a as ih =>
    rw [List.mapM_cons] at h
    cases hfa : f a with
    | error e => rw [hfa, except_bind_error] at h; exact absurd h (by simp)
    | ok b =>
      rw [hfa, except_bind_ok] at h
      cases hmas : as.mapM f with
      | error e => rw [hmas, except_bind_error] at h; exact absurd h (by simp)
      | ok bs =>
        rw [hmas, except_bind_ok, except_pure_eq] at h
        injection h with h
        subst h
        exact List.Forall₂.cons hfa (ih bs hmas)

/-! ### Payout arithmetic lemmas -/

theorem sum_range_base_add_ite (base rem : Int) (hrem : 0 ≤ rem) (n : Nat) :
    (((List.range n).map (fun i : Nat => base + if (i : Int) < rem then 1 else 0)).sum)
      = n * base + min rem n := by
  induction n with
  | zero => simp [min_eq_right hrem]
  | succ k ih =>
    rw [List.range_succ, List.map_append, List.sum_append, ih]
    simp only [List.map_cons, List.map_nil, List.sum_cons, List.sum_nil, add_zero]
    push_cast
    rw [add_mul, one_mul]
    by_cases h : (k : Int) < rem
    · rw [if_pos h, min_eq_right (by omega : (k : Int) ≤ rem),
        min_eq_right (by omega : (k : Int) + 1 ≤ rem)]
      omega
    · rw [if_neg h, min_eq_left (by omega : rem ≤ (k : Int)),
        min_eq_left (by omega : rem ≤ (k : Int) + 1)]
      omega

theorem calculatePayouts_map_fst (pot : Int) (ws : List Nat) :
    (calculatePayouts pot ws).map (fun p => p.1) = ws := by
  unfold calculatePayouts
  by_cases h : ws.length = 0
  · rw [if_pos h]
    simp [List.eq_nil_of_length_eq_zero h]
  · rw [if_neg h, List.map_map]
    have h1 : ((fun p : Nat × Int => p.1) ∘ fun p : Nat × Nat =>
        ((p.2 : Nat), Int.fdiv pot ws.length +
          if (p.1 : Int) < Int.tmod pot ws.length then 1 else 0)) =
        (Prod.snd : Nat × Nat → Nat) := rfl
    rw [h1, List.enum_map_snd]

theorem calculatePayouts_map_snd (pot : Int) (ws : List Nat) (h : ws ≠ []) :
    (calculatePayouts pot ws).map (fun p => p.2) =
      (List.range ws.length).map (fun i : Nat =>
        Int.fdiv pot ws.length + if (i : Int) < Int.tmod pot ws.length then 1 else 0) := by
  unfold calculatePayouts
  rw [if_neg (by simpa using h), List.map_map]
  have h1 : ((fun p : Nat × Int => p.2) ∘ fun p : Nat × Nat =>
      ((p.2 : Nat), Int.fdiv pot ws.length +
        if (p.1 : Int) < Int.tmod pot ws.length then 1 else 0)) =
      (fun i : Nat => Int.fdiv pot ws.length +
        if (i : Int) < Int.tmod pot ws.length then 1 else 0) ∘ Prod.fst := rfl
  rw [h1, ← List.map_map, List.enum_map_fst]

theorem calculatePayouts_sum (pot : Int) (ws : List Nat) (hpot : 0 ≤ pot)
    (hw : ws ≠ []) :
    ((calculatePayouts pot ws).map (fun p => p.2)).sum = pot := by
  have hlen : 0 < ws.length := List.length_pos.mpr hw
  have hlenZ : (0 : Int) < ws.length := by exact_mod_cast hlen
  rw [calculatePayouts_map_snd pot ws hw,
    sum_range_base_add_ite _ _ (Int.tmod_nonneg _ hpot) _]
  have h1 : Int.tmod pot ws.length < ws.length := Int.tmod_lt_of_pos pot hlenZ
  rw [min_eq_left (le_of_lt h1), Int.fdiv_eq_ediv _ (le_of_lt hlenZ),
    Int.tmod_eq_emod hpot (le_of_lt hlenZ)]
  exact Int.ediv_add_emod pot (ws.length : Int)

/-! ### `determineWinners` lemmas -/

theorem dw_fold_snd_ne_nil (rest : List PlayerHand) :
    ∀ acc : EvaluatedHand × List PlayerHand, acc.2 ≠ [] →
      (rest.foldl dwStep acc).2 ≠ [] := by
  induction rest with
  | nil => intro acc h; simpa using h
  | cons ph rest ih =>
    intro acc h
    rw [List.foldl_cons]
    apply ih
    unfold dwStep
    split
    · simp
    · split
      · simp
      · exact h

theorem dw_fold_mem (rest : List PlayerHand) :
    ∀ acc : EvaluatedHand × List PlayerHand, ∀ q ∈ (rest.foldl dwStep acc).2,
      q ∈ acc.2 ∨ q ∈ rest := by
  induction rest with
  | nil => intro acc q hq; exact Or.inl hq
  | cons ph rest ih =>
    intro acc q hq
    rw [List.foldl_cons] at hq
    rcases ih (dwStep acc ph) q hq with h | h
    · unfold dwStep at h
      split at h
      · simp at h; subst h; exact Or.inr (List.mem_cons_self _ _)
      · split at h
        · rcases List.mem_append.mp h with h2 | h2
          · exact Or.inl h2
          · simp at h2; subst h2; exact Or.inr (List.mem_cons_self _ _)
        · exact Or.inl h
    · exact Or.inr (List.mem_cons_of_mem _ h)

theorem dw_fold_invariant (rest : List PlayerHand) :
    ∀ (acc : EvaluatedHand × List PlayerHand) (processed : List PlayerHand),
      (∀ w ∈ acc.2, compareHands w.hand acc.1 = 0) →
      (∀ ph ∈ processed, compareHands ph.hand acc.1 ≤ 0) →
      (∀ w ∈ (rest.foldl dwStep acc).2,
        compareHands w.hand (rest.foldl dwStep acc).1 = 0) ∧
      (∀ ph ∈ processed ++ rest,
        compareHands ph.hand (rest.foldl dwStep acc).1 ≤ 0) := by
  induction rest with
  | nil =>
    intro acc processed hw hp
    refine ⟨hw, ?_⟩
    simpa using hp
  | cons ph rest ih =>
    intro acc processed hw hp
    rw [List.foldl_cons]
    have hstep :
        (∀ w ∈ (dwStep acc ph).2, compareHands w.hand (dwStep acc ph).1 = 0) ∧
        (∀ q ∈ processed ++ [ph], compareHands q.hand (dwStep acc ph).1 ≤ 0) := by
      unfold dwStep
      rcases lt_trichotomy (compareHands ph.hand acc.1) 0 with hr | hr | hr
      · rw [if_neg (by omega), if_neg (by omega)]
        refine ⟨hw, ?_⟩
        intro q hq
        rcases List.mem_append.mp hq with h2 | h2
        · exact hp q h2
        · simp at h2; subst h2; exact le_of_lt hr
      · rw [if_neg (by omega), if_pos hr]
        constructor
        · intro w hwmem
          rcases List.mem_append.mp hwmem with h2 | h2
          · exact hw w h2
          · simp at h2; subst h2; exact hr
        · intro q hq
          rcases List.mem_append.mp hq with h2 | h2
          · exact hp q h2
          · simp at h2; subst h2; exact le_of_eq hr
      · rw [if_pos hr]
        constructor
        · intro w hwmem
          simp at hwmem; subst hwmem
          exact ch_self _
        · intro q hq
          have hflip : compareHands acc.1 ph.hand ≤ 0 := by
            rw [ch_neg]; omega
          rcases List.mem_append.mp hq with h2 | h2
          · exact ch_le_trans _ _ _ (hp q h2) hflip
          · simp at h2; subst h2; simp [ch_self]
    have := ih (dwStep acc ph) (processed ++ [ph]) hstep.1 hstep.2
    refine ⟨this.1, ?_⟩
    intro q hq
    apply this.2
    simp at hq ⊢
    tauto

theorem dw_ok_ne_nil (phs : List PlayerHand) (ws : List Nat)
    (hs : List EvaluatedHand) (h : determineWinners phs = .ok (ws, hs)) :
    ws ≠ [] := by
  cases phs with
  | nil => simp [determineWinners] at h
  | cons first rest =>
    simp only [determineWinners] at h
    injection h with h
    have h2 := congrArg Prod.fst h
    simp only at h2
    rw [← h2]
    have := dw_fold_snd_ne_nil rest (first.hand, [first]) (by simp)
    simpa using this

theorem dw_winners_sub (phs : List PlayerHand) (ws : List Nat)
    (hs : List EvaluatedHand) (h : determineWinners phs = .ok (ws, hs)) :
    ∀ u ∈ ws, ∃ w ∈ phs, w.userId = u := by
  cases phs with
  | nil => simp [determineWinners] at h
  | cons first rest =>
    simp only [determineWinners] at h
    injection h with h
    have h2 := congrArg Prod.fst h
    simp only at h2
    intro u hu
    rw [← h2] at hu
    rcases List.mem_map.mp hu with ⟨w, hwmem, hwid⟩
    refine ⟨w, ?_, hwid⟩
    rcases dw_fold_mem rest (first.hand, [first]) w hwmem with h3 | h3
    · simp at h3; subst h3; exact List.mem_cons_self _ _
    · exact List.mem_cons_of_mem _ h3

theorem dw_winners_maximal (phs : List PlayerHand) (ws : List Nat)
    (hs : List EvaluatedHand) (h : determineWinners phs = .ok (ws, hs)) :
    ∀ u ∈ ws, ∃ w ∈ phs, w.userId = u ∧
      ∀ ph ∈ phs, 0 ≤ compareHands w.hand ph.hand := by
  cases phs with
  | nil => simp [determineWinners] at h
  | cons first rest =>
    have hinv := dw_fold_invariant rest (first.hand, [first]) [first]
      (by simp [ch_self]) (by simp [ch_self])
    simp only [determineWinners] at h
    injection h with h
    have h2 := congrArg Prod.fst h
    simp only at h2
    intro u hu
    rw [← h2] at hu
    rcases List.mem_map.mp hu with ⟨w, hwmem, hwid⟩
    have hwmem2 : w ∈ first :: rest := by
      rcases dw_fold_mem rest (first.hand, [first]) w hwmem with h3 | h3
      · simp at h3; subst h3; exact List.mem_cons_self _ _
      · exact List.mem_cons_of_mem _ h3
    refine ⟨w, hwmem2, hwid, ?_⟩
    intro ph hph
    have hwzero := hinv.1 w hwmem
    have hphle : compareHands ph.hand (rest.foldl dwStep (first.hand, [first])).1 ≤ 0 := by
      apply hinv.2
      simpa using hph
    have := ch_congr_left w.hand _ ph.hand hwzero
    rw [this, ch_neg]
    omega

/-! ### `runShowdown` dissection -/

theorem runShowdown_ok_dissect (st st2 : GameState) (res : ShowdownResult)
    (h : runShowdown st = .ok (st2, res)) :
    ∃ (phs : List PlayerHand) (ws : List Nat) (hs : List EvaluatedHand),
      (st.players.filter (fun p => p.betAmount ≥ 0)).mapM
        (evalPlayerHand st.communityCards) = .ok phs ∧
      determineWinners phs = .ok (ws, hs) ∧
      res.winners = ws ∧
      res.payouts = calculatePayouts st.potMoney ws ∧
      st2 = endGame (if st.potMoney > 0
        then (addToPot ((calculatePayouts st.potMoney ws).foldl applyPayout st)
          (-st.potMoney)).1
        else (calculatePayouts st.potMoney ws).foldl applyPayout st) := by
  unfold runShowdown at h
  by_cases h1 : st.communityCards.length < 3
  · simp [h1, except_throw_eq, except_bind_error] at h
  rw [if_neg h1] at h
  by_cases h2 : (st.players.filter (fun p => p.betAmount ≥ 0)).length = 0
  · simp [h2, except_throw_eq, except_bind_error] at h
  rw [if_neg h2] at h
  cases hmap : (st.players.filter (fun p => p.betAmount ≥ 0)).mapM
      (evalPlayerHand st.communityCards) with
  | error e => rw [hmap, except_bind_error] at h; exact absurd h (by simp)
  | ok phs =>
    rw [hmap, except_bind_ok] at h
    cases hdw : determineWinners phs with
    | error e => rw [hdw, except_bind_error] at h; exact absurd h (by simp)
    | ok pair =>
      rw [hdw, except_bind_ok] at h
      obtain ⟨ws, hs⟩ := pair
      simp only [except_pure_eq] at h
      injection h with h
      rw [Prod.mk.injEq] at h
      obtain ⟨hst2, hres⟩ := h
      refine ⟨phs, ws, hs, rfl, hdw, ?_, ?_, hst2.symm⟩
      · rw [← hres]
      · rw [← hres]

theorem foldl_applyPayout_potMoney (payouts : List (Nat × Int)) :
    ∀ st : GameState, (payouts.foldl applyPayout st).potMoney = st.potMoney := by
  induction payouts with
  | nil => intro st; rfl
  | cons p ps ih =>
    intro st
    rw [List.foldl_cons, ih]
    unfold applyPayout
    split
    · rfl
    · rfl

theorem foldl_applyPayout_state (payouts : List (Nat × Int)) :
    ∀ st : GameState, (payouts.foldl applyPayout st).state = st.state := by
  induction payouts with
  | nil => intro st; rfl
  | cons p ps ih =>
    intro st
    rw [List.foldl_cons, ih]
    unfold applyPayout
    split
    · rfl
    · rfl

/-! ### Claim theorems -/

/-- C8: `compareHands` orders evaluated hands lexicographically by
category then rank list, returns a value in the set of -1, 0 and 1, is
reflexive, antisymmetric (`compareHands a b = -compareHands b a`) and
transitive over all evaluated hands, with ties transitive as well. -/
theorem C8_compareHands_total_order (a b c : EvaluatedHand) :
    (compareHands a b = 1 ∨ compareHands a b = 0 ∨ compareHands a b = -1) ∧
    compareHands a a = 0 ∧
    compareHands a b = -compareHands b a ∧
    (compareHands a b ≤ 0 → compareHands b c ≤ 0 → compareHands a c ≤ 0) ∧
    (compareHands a b = 0 → compareHands b c = 0 → compareHands a c = 0) :=
  ⟨ch_cases a b, ch_self a, ch_neg a b, ch_le_trans a b c, ch_zero_trans a b c⟩

/-- Witness for C8 at three concrete evaluated hands (a pair, a flush
and a royal flush). -/
theorem C8_compareHands_total_order_witness :
    compareHands ⟨1, [9, 12, 11, 5], "One Pair", "Pair of Nines"⟩
        ⟨5, [14, 13, 12, 11, 2], "Flush", "Flush, Ace high"⟩ ≤ 0 ∧
    compareHands ⟨5, [14, 13, 12, 11, 2], "Flush", "Flush, Ace high"⟩
        ⟨8, [14, 13, 12, 11, 10], "Royal Flush", "Royal Flush"⟩ ≤ 0 ∧
    compareHands ⟨1, [9, 12, 11, 5], "One Pair", "Pair of Nines"⟩
        ⟨8, [14, 13, 12, 11, 10], "Royal Flush", "Royal Flush"⟩ ≤ 0 :=
  ⟨by decide, by decide,
    (C8_compareHands_total_order ⟨1, [9, 12, 11, 5], "One Pair", "Pair of Nines"⟩
      ⟨5, [14, 13, 12, 11, 2], "Flush", "Flush, Ace high"⟩
      ⟨8, [14, 13, 12, 11, 10], "Royal Flush", "Royal Flush"⟩).2.2.2.1
      (by decide) (by decide)⟩

/-- C2: a successful showdown with a non-negative pot pays out exactly
the pot (the payout amounts sum to `pot_money`) and leaves the pot at
zero afterwards. -/
theorem C2_showdown_pot_conservation (st st2 : GameState) (res : ShowdownResult)
    (hpot : 0 ≤ st.potMoney) (h : runShowdown st = .ok (st2, res)) :
    ((res.payouts.map (fun p => p.2)).sum = st.potMoney) ∧ st2.potMoney = 0 := by
  obtain ⟨phs, ws, hs, hmap, hdw, hwin, hpay, hst2⟩ := runShowdown_ok_dissect st st2 res h
  have hwne : ws ≠ [] := dw_ok_ne_nil phs ws hs hdw
  constructor
  · rw [hpay]
    exact calculatePayouts_sum st.potMoney ws hpot hwne
  · rw [hst2]
    unfold endGame
    by_cases hgt : st.potMoney > 0
    · rw [if_pos hgt]
      show (addToPot _ (-st.potMoney)).1.potMoney = 0
      unfold addToPot
      show (_ : GameState).potMoney + (-st.potMoney) = 0
      rw [foldl_applyPayout_potMoney]
      omega
    · rw [if_neg hgt]
      show ((calculatePayouts st.potMoney ws).foldl applyPayout st).potMoney = 0
      rw [foldl_applyPayout_potMoney]
      omega

/-- A concrete three-player river state: pot 450, no folds, seat 1
holds a royal flush, seats 2 and 3 hold a pair of nines and seven
high.  It stands in for spec scenario S3 after the betting (seat 1
contributed 50, seats 2 and 3 contributed 200 each). -/
def exShowdownState : GameState :=
  { currentTurn := some 1, potMoney := 450, state := "river"
    players := [⟨1, some 1, 0, 0, true, "player", [⟨"A", "S"⟩, ⟨"K", "S"⟩]⟩,
      ⟨2, some 2, 300, 0, true, "player", [⟨"9", "H"⟩, ⟨"9", "D"⟩]⟩,
      ⟨3, some 3, 300, 0, true, "player", [⟨"2", "C"⟩, ⟨"7", "C"⟩]⟩]
    communityCards := [⟨"Q", "S"⟩, ⟨"J", "S"⟩, ⟨"10", "S"⟩, ⟨"5", "H"⟩, ⟨"3", "D"⟩]
    deck := [] }

/-- Witness for C2: on the concrete 450-pot river showdown the payout
sum is 450 and the pot afterwards is zero. -/
theorem C2_showdown_pot_conservation_witness :
    (runShowdown exShowdownState).toOption.map
      (fun r => (((r.2.payouts.map (fun p => p.2)).sum), r.1.potMoney)) =
      some (450, 0) := by
  cases hrun : runShowdown exShowdownState with
  | error e =>
    have hok : (runShowdown exShowdownState).toOption.isSome = true := by decide
    rw [hrun] at hok
    simp [Except.toOption] at hok
  | ok pr =>
    obtain ⟨st2, res⟩ := pr
    have h := C2_showdown_pot_conservation exShowdownState st2 res (by decide) hrun
    simp only [Except.toOption, Option.map]
    rw [h.1, h.2]
    rfl

/-! ### Turn-advancement lemmas -/

theorem foldl_pickMinPos_mem (l : List GamePlayer) :
    ∀ (acc : Option GamePlayer) (p : GamePlayer),
      l.foldl pickMinPos acc = some p → acc = some p ∨ p ∈ l := by
  induction l with
  | nil => intro acc p h; exact Or.inl h
  | cons q l ih =>
    intro acc p h
    rw [List.foldl_cons] at h
    rcases ih (pickMinPos acc q) p h with h2 | h2
    · cases acc with
      | none =>
        simp only [pickMinPos] at h2
        injection h2 with h2
        exact Or.inr (h2 ▸ List.mem_cons_self _ _)
      | some r =>
        simp only [pickMinPos] at h2
        by_cases hlt : (q.position.getD 0) < (r.position.getD 0)
        · rw [if_pos hlt] at h2
          injection h2 with h2
          exact Or.inr (h2 ▸ List.mem_cons_self _ _)
        · rw [if_neg hlt] at h2
          exact Or.inl h2
    · exact Or.inr (List.mem_cons_of_mem _ h2)

theorem firstByPositionAsc_mem (l : List GamePlayer) (p : GamePlayer)
    (h : firstByPositionAsc l = some p) : p ∈ l := by
  unfold firstByPositionAsc at h
  cases hfold : (l.filter (fun p => p.position.isSome)).foldl pickMinPos none with
  | some q =>
    rw [hfold] at h
    injection h with h
    subst h
    rcases foldl_pickMinPos_mem _ _ _ hfold with h2 | h2
    · exact absurd h2 (by simp)
    · exact List.mem_of_mem_filter h2
  | none =>
    rw [hfold] at h
    cases l with
    | nil => simp at h
    | cons a l =>
      injection h with h
      subst h
      exact List.mem_cons_self _ _

theorem GET_NEXT_PLAYER_sound (st : GameState) (pos : Int) (uid : Nat)
    (h : GET_NEXT_PLAYER st pos = some uid) :
    ∃ q ∈ st.players, q.userId = uid ∧ q.betAmount ≥ 0 := by
  unfold GET_NEXT_PLAYER at h
  rcases Option.map_eq_some'.mp h with ⟨q, hq, hid⟩
  have hmem := firstByPositionAsc_mem _ _ hq
  rw [List.mem_filter] at hmem
  refine ⟨q, hmem.1, hid, ?_⟩
  have := hmem.2
  simp only [Bool.and_eq_true, decide_eq_true_eq] at this
  exact this.1

theorem GET_FIRST_PLAYER_sound (st : GameState) (uid : Nat)
    (h : GET_FIRST_PLAYER st = some uid) :
    ∃ q ∈ st.players, q.userId = uid ∧ q.betAmount ≥ 0 := by
  unfold GET_FIRST_PLAYER at h
  rcases Option.map_eq_some'.mp h with ⟨q, hq, hid⟩
  have hmem := firstByPositionAsc_mem _ _ hq
  rw [List.mem_filter] at hmem
  refine ⟨q, hmem.1, hid, ?_⟩
  simpa using hmem.2

/-- C10: when no other non-folded player exists, `advanceTurn` does
not fail: it returns the acting player and the turn value is
unchanged (either no row is written, or the same id is written
back). -/
theorem C10_advanceTurn_sole_player (st : GameState) (u : Nat) (p : GamePlayer)
    (hcur : st.currentTurn = some u)
    (hfind : findPlayer st u = some p)
    (hpos : p.position.isSome)
    (hothers : ∀ q ∈ st.players, q.userId ≠ u → q.betAmount < 0) :
    ∃ st2, advanceTurn st = .ok (st2, u) ∧ st2.currentTurn = st.currentTurn := by
  obtain ⟨pos, hpossome⟩ := Option.isSome_iff_exists.mp hpos
  have hgpp : getPlayerPosition st u = some pos := by
    unfold getPlayerPosition
    rw [hfind]
    exact hpossome
  cases hnext : GET_NEXT_PLAYER st pos with
  | some nxt =>
    obtain ⟨q, hqmem, hqid, hqbet⟩ := GET_NEXT_PLAYER_sound st pos nxt hnext
    have hqu : q.userId = u := by
      by_contra hne
      exact absurd hqbet (not_le.mpr (hothers q hqmem hne))
    have hnu : nxt = u := by rw [← hqid, hqu]
    subst hnu
    refine ⟨setCurrentTurn st nxt, ?_, by rw [hcur]; rfl⟩
    simp only [advanceTurn, getCurrentTurn, hcur, hgpp, hnext]
  | none =>
    cases hfirst : GET_FIRST_PLAYER st with
    | some nxt =>
      obtain ⟨q, hqmem, hqid, hqbet⟩ := GET_FIRST_PLAYER_sound st nxt hfirst
      have hqu : q.userId = u := by
        by_contra hne
        exact absurd hqbet (not_le.mpr (hothers q hqmem hne))
      have hnu : nxt = u := by rw [← hqid, hqu]
      subst hnu
      refine ⟨setCurrentTurn st nxt, ?_, by rw [hcur]; rfl⟩
      simp only [advanceTurn, getCurrentTurn, hcur, hgpp, hnext, hfirst]
    | none =>
      refine ⟨st, ?_, rfl⟩
      simp only [advanceTurn, getCurrentTurn, hcur, hgpp, hnext, hfirst]

/-! ### Fold-marker lemmas (C9) -/

theorem advanceTurn_players (st st2 : GameState) (n : Nat)
    (h : advanceTurn st = .ok (st2, n)) : st2.players = st.players := by
  unfold advanceTurn at h
  cases hcur : getCurrentTurn st with
  | none => simp only [hcur] at h; exact absurd h (by simp)
  | some u =>
    simp only [hcur] at h
    cases hpos : getPlayerPosition st u with
    | none => simp only [hpos] at h; exact absurd h (by simp)
    | some pos =>
      simp only [hpos] at h
      cases hnext : GET_NEXT_PLAYER st pos with
      | some nxt =>
        simp only [hnext] at h
        injection h with h
        rw [Prod.mk.injEq] at h
        rw [← h.1]
        rfl
      | none =>
        simp only [hnext] at h
        cases hfirst : GET_FIRST_PLAYER st with
        | some nxt =>
          simp only [hfirst] at h
          injection h with h
          rw [Prod.mk.injEq] at h
          rw [← h.1]
          rfl
        | none =>
          simp only [hfirst] at h
          injection h with h
          rw [Prod.mk.injEq] at h
          rw [← h.1]

theorem findPlayer_map_id (g : GamePlayer → GamePlayer)
    (hg : ∀ p, (g p).userId = p.userId) (l : List GamePlayer) (uid : Nat) :
    (l.map g).find? (fun p => p.userId = uid) =
      (l.find? (fun p => p.userId = uid)).map g := by
  induction l with
  | nil => rfl
  | cons p l ih =>
    by_cases hp : p.userId = uid
    · rw [List.map_cons, List.find?_cons_of_pos _ (by simpa [hg] using hp),
        List.find?_cons_of_pos _ (by simpa using hp)]
      rfl
    · rw [List.map_cons, List.find?_cons_of_neg _ (by simpa [hg] using hp),
        List.find?_cons_of_neg _ (by simpa using hp), ih]

theorem forall₂_mem_right {R : α → β → Prop} {l : List α} {out : List β}
    (h : List.Forall₂ R l out) (b : β) (hb : b ∈ out) : ∃ a ∈ l, R a b := by
  induction h with
  | nil => simp at hb
  | cons hr _ ih =>
    rcases List.mem_cons.mp hb with h2 | h2
    · subst h2; exact ⟨_, List.mem_cons_self _ _, hr⟩
    · rcases ih h2 with ⟨a, ha, har⟩
      exact ⟨a, List.mem_cons_of_mem _ ha, har⟩

theorem evalPlayerHand_ok (cc : List Card) (p : GamePlayer) (ph : PlayerHand)
    (h : evalPlayerHand cc p = .ok ph) :
    ph.userId = p.userId ∧ evaluateHand p.holeCards cc = .ok ph.hand := by
  unfold evalPlayerHand at h
  by_cases hlen : p.holeCards.length < 2
  · simp [hlen, except_throw_eq, except_bind_error] at h
  rw [if_neg hlen] at h
  cases heval : evaluateHand p.holeCards cc with
  | error e => rw [heval, except_bind_error] at h; exact absurd h (by simp)
  | ok ev =>
    rw [heval, except_bind_ok, except_pure_eq] at h
    injection h with h
    subst h
    exact ⟨rfl, rfl⟩

/-- C9: the fold marker `bet_amount = -1` and its consequences.  A
fold writes `-1`; the between-street `RESET_BETS` leaves a negative
bet untouched; the next-player queries never select a folded seat; the
round-completion predicate only reads the non-folded rows; a seat
whose rows are all folded never appears among showdown winners. -/
theorem C9_fold_marker_persistence (st : GameState) (uid : Nat) :
    (∀ st2 r p, fold st uid = .ok (st2, r) → findPlayer st uid = some p →
      findPlayer st2 uid = some { p with betAmount := -1 }) ∧
    (∀ p, findPlayer st uid = some p → p.betAmount < 0 →
      findPlayer (resetBets st) uid = some p) ∧
    ((∀ q ∈ st.players, q.userId = uid → q.betAmount < 0) →
      (∀ pos, GET_NEXT_PLAYER st pos ≠ some uid) ∧
        GET_FIRST_PLAYER st ≠ some uid) ∧
    (isBettingRoundComplete st.players =
      isBettingRoundComplete (st.players.filter (fun p => p.betAmount ≥ 0))) ∧
    (∀ st2 res, runShowdown st = .ok (st2, res) →
      (∀ q ∈ st.players, q.userId = uid → q.betAmount < 0) →
      uid ∉ res.winners) := by
  refine ⟨?_, ?_, ?_, ?_, ?_⟩
  · intro st2 r p hfold hfind
    unfold fold at hfold
    cases hvt : validateTurn st uid with
    | error e =>
      simp only [hvt, except_bind_error] at hfold
      exact absurd hfold (by simp)
    | ok u =>
      simp only [hvt, except_bind_ok] at hfold
      cases hadv : advanceTurn (updatePlayerBet st uid (-1)) with
      | error e =>
        simp only [hadv, except_bind_error] at hfold
        exact absurd hfold (by simp)
      | ok pr =>
        obtain ⟨st3, nxt⟩ := pr
        simp only [hadv, except_bind_ok, except_pure_eq] at hfold
        injection hfold with hfold
        rw [Prod.mk.injEq] at hfold
        have hpl : st2.players = (updatePlayerBet st uid (-1)).players := by
          rw [← hfold.1]
          exact advanceTurn_players _ _ _ hadv
        unfold findPlayer at hfind ⊢
        rw [hpl]
        unfold updatePlayerBet
        simp only
        rw [findPlayer_map_id _ (by intro q; split <;> rfl), hfind]
        simp only [Option.map]
        have : p.userId = uid := by
          have := List.find?_some hfind
          simpa using this
        rw [if_pos this]
  · intro p hfind hneg
    unfold findPlayer at hfind ⊢
    unfold resetBets
    simp only
    rw [findPlayer_map_id _ (by intro q; split <;> rfl), hfind]
    simp only [Option.map]
    rw [if_neg (by omega)]
  · intro hall
    constructor
    · intro pos hnext
      obtain ⟨q, hqmem, hqid, hqbet⟩ := GET_NEXT_PLAYER_sound st pos uid hnext
      exact absurd hqbet (not_le.mpr (hall q hqmem hqid))
    · intro hfirst
      obtain ⟨q, hqmem, hqid, hqbet⟩ := GET_FIRST_PLAYER_sound st uid hfirst
      exact absurd hqbet (not_le.mpr (hall q hqmem hqid))
  · unfold isBettingRoundComplete
    rw [List.filter_filter]
    simp only [Bool.and_self]
  · intro st2 res hrun hall
    obtain ⟨phs, ws, hs, hmap, hdw, hwin, hpay, hst2⟩ :=
      runShowdown_ok_dissect st st2 res hrun
    rw [hwin]
    intro huid
    obtain ⟨w, hwmem, hwid⟩ := dw_winners_sub phs ws hs hdw uid huid
    have hf2 := list_mapM_ok_forall₂ _ _ _ hmap
    obtain ⟨a, hamem, har⟩ := forall₂_mem_right hf2 w hwmem
    have ⟨haid, _⟩ := evalPlayerHand_ok _ _ _ har
    rw [List.mem_filter] at hamem
    have habet : a.betAmount ≥ 0 := by simpa using hamem.2
    have : a.userId = uid := by rw [← hwid, ← haid]
    exact absurd habet (not_le.mpr (hall a hamem.1 this))

/-- Witness for C9 at a concrete two-player state: player 2 has
folded; the reset keeps the marker, the queries skip player 2, and the
sole-survivor showdown never pays player 2. -/
theorem C9_fold_marker_persistence_witness :
    findPlayer (resetBets
      { currentTurn := some 1, potMoney := 30, state := "flop"
        players := [⟨1, some 1, 990, 10, true, "player", []⟩,
          ⟨2, some 2, 980, -1, false, "player", []⟩]
        communityCards := [], deck := [] }) 2 =
      some ⟨2, some 2, 980, -1, false, "player", []⟩ ∧
    (∀ pos, GET_NEXT_PLAYER
      { currentTurn := some 1, potMoney := 30, state := "flop"
        players := [⟨1, some 1, 990, 10, true, "player", []⟩,
          ⟨2, some 2, 980, -1, false, "player", []⟩]
        communityCards := [], deck := [] } pos ≠ some 2) := by
  have h := C9_fold_marker_persistence
    { currentTurn := some 1, potMoney := 30, state := "flop"
      players := [⟨1, some 1, 990, 10, true, "player", []⟩,
        ⟨2, some 2, 980, -1, false, "player", []⟩]
      communityCards := [], deck := [] } 2
  exact ⟨h.2.1 _ (by decide) (by decide), (h.2.2.1 (by decide)).1⟩

/-! ### Rejected actions (C4) -/

theorem txApply_of_isOk_false (act : GameState → Except String (GameState × α))
    (st : GameState) (h : (act st).isOk = false) : txApply act st = st := by
  unfold txApply
  cases hact : act st with
  | ok pr => rw [hact] at h; simp [Except.isOk, Except.toBool] at h
  | error e => rfl

theorem validateTurn_error (st : GameState) (uid : Nat)
    (h : st.currentTurn ≠ some uid) :
    ∃ e, validateTurn st uid = .error e := by
  unfold validateTurn getCurrentTurn
  cases hcur : st.currentTurn with
  | none => exact ⟨_, rfl⟩
  | some v =>
    have hv : v ≠ uid := by
      intro he
      exact h (by rw [hcur, he])
    simp only [if_pos hv]
    exact ⟨_, rfl⟩

theorem validateTurn_ok (st : GameState) (uid : Nat)
    (h : st.currentTurn = some uid) : validateTurn st uid = .ok () := by
  unfold validateTurn getCurrentTurn
  simp only [h]
  rw [if_neg (by simp)]

/-- C4: a rejected betting action mutates nothing.  The transaction
rollback returns the pre-action state whenever the action errors, and
each of the listed illegal submissions does error: acting out of turn
(all five actions), checking while behind the current bet, calling or
raising without sufficient chips, and going all-in with an empty
stack. -/
theorem C4_rejected_action_no_mutation (st : GameState) (uid : Nat) (amt : Int) :
    ((fold st uid).isOk = false → txApply (fun s => fold s uid) st = st) ∧
    ((check st uid).isOk = false → txApply (fun s => check s uid) st = st) ∧
    ((call st uid).isOk = false → txApply (fun s => call s uid) st = st) ∧
    ((raise st uid amt).isOk = false → txApply (fun s => raise s uid amt) st = st) ∧
    ((allIn st uid).isOk = false → txApply (fun s => allIn s uid) st = st) ∧
    (st.currentTurn ≠ some uid →
      (fold st uid).isOk = false ∧ (check st uid).isOk = false ∧
      (call st uid).isOk = false ∧ (raise st uid amt).isOk = false ∧
      (allIn st uid).isOk = false) ∧
    (st.currentTurn = some uid → getCurrentBet st > getPlayerBet st uid →
      (check st uid).isOk = false) ∧
    (st.currentTurn = some uid → ∀ p, findPlayer st uid = some p →
      p.chipCount < getCurrentBet st - getPlayerBet st uid →
      (call st uid).isOk = false) ∧
    (st.currentTurn = some uid → getCurrentBet st < amt →
      ∀ p, findPlayer st uid = some p → p.chipCount < amt - getPlayerBet st uid →
      (raise st uid amt).isOk = false) ∧
    (st.currentTurn = some uid → ∀ p, findPlayer st uid = some p →
      p.chipCount ≤ 0 → (allIn st uid).isOk = false) := by
  refine ⟨txApply_of_isOk_false (fun s => fold s uid) st,
    txApply_of_isOk_false (fun s => check s uid) st,
    txApply_of_isOk_false (fun s => call s uid) st,
    txApply_of_isOk_false (fun s => raise s uid amt) st,
    txApply_of_isOk_false (fun s => allIn s uid) st, ?_, ?_, ?_, ?_, ?_⟩
  · intro hturn
    obtain ⟨e, he⟩ := validateTurn_error st uid hturn
    refine ⟨?_, ?_, ?_, ?_, ?_⟩
    · unfold fold; rw [he, except_bind_error]; rfl
    · unfold check; rw [he, except_bind_error]; rfl
    · unfold call; rw [he, except_bind_error]; rfl
    · unfold raise; rw [he, except_bind_error]; rfl
    · unfold allIn; rw [he, except_bind_error]; rfl
  · intro hcur hgt
    unfold check
    rw [validateTurn_ok st uid hcur, except_bind_ok]
    simp only [if_pos hgt, except_throw_eq, except_bind_error]
    rfl
  · intro hcur p hp hlt
    unfold call
    rw [validateTurn_ok st uid hcur, except_bind_ok]
    by_cases hle : getCurrentBet st - getPlayerBet st uid ≤ 0
    · simp only [if_pos hle, except_throw_eq, except_bind_error]
      rfl
    · simp only [if_neg hle]
      unfold getPlayerChips
      rw [hp, except_bind_ok]
      simp only [if_pos hlt, except_throw_eq, except_bind_error]
      rfl
  · intro hcur hgt p hp hlt
    unfold raise
    rw [validateTurn_ok st uid hcur, except_bind_ok]
    rw [if_neg (by omega : ¬ amt ≤ getCurrentBet st)]
    unfold getPlayerChips
    rw [hp, except_bind_ok]
    simp only [if_pos hlt, except_throw_eq, except_bind_error]
    rfl
  · intro hcur p hp hle
    unfold allIn
    rw [validateTurn_ok st uid hcur, except_bind_ok, hp]
    simp only [if_pos hle, except_throw_eq, except_bind_error]
    rfl

/-- Witness for C4: a state with the turn on player 9; every action by
player 1 is rejected and the rollback preserves the state. -/
theorem C4_rejected_action_no_mutation_witness :
    (Poker.fold
      { currentTurn := some 9, potMoney := 30, state := "pre-flop"
        players := [⟨1, some 1, 990, 10, true, "player", []⟩]
        communityCards := [], deck := [] } 1).isOk = false ∧
    txApply (fun s => Poker.fold s 1)
      { currentTurn := some 9, potMoney := 30, state := "pre-flop"
        players := [⟨1, some 1, 990, 10, true, "player", []⟩]
        communityCards := [], deck := [] } =
      { currentTurn := some 9, potMoney := 30, state := "pre-flop"
        players := [⟨1, some 1, 990, 10, true, "player", []⟩]
        communityCards := [], deck := [] } := by
  have h := C4_rejected_action_no_mutation
    { currentTurn := some 9, potMoney := 30, state := "pre-flop"
      players := [⟨1, some 1, 990, 10, true, "player", []⟩]
      communityCards := [], deck := [] } 1 40
  have hfolderr := (h.2.2.2.2.2.1 (by decide)).1
  exact ⟨hfolderr, h.1 hfolderr⟩

/-! ### Raise acceptance (C5) -/

theorem validateTurn_ok_iff (st : GameState) (uid : Nat) :
    (validateTurn st uid).isOk = true ↔ st.currentTurn = some uid := by
  constructor
  · intro h
    unfold validateTurn getCurrentTurn at h
    cases hcur : st.currentTurn with
    | none => rw [hcur] at h; simp [Except.isOk, Except.toBool] at h
    | some v =>
      simp only [hcur] at h
      by_cases hv : v = uid
      · rw [hv]
      · rw [if_pos hv] at h; simp [Except.isOk, Except.toBool] at h
  · intro h
    rw [validateTurn_ok st uid h]
    rfl

theorem findPlayer_updateChips (st : GameState) (uid : Nat) (d : Int)
    (p : GamePlayer) (hp : findPlayer st uid = some p) :
    findPlayer (updatePlayerChips st uid d) uid =
      some { p with chipCount := p.chipCount + d } := by
  have hid : p.userId = uid := by simpa using List.find?_some hp
  unfold findPlayer updatePlayerChips
  simp only
  rw [findPlayer_map_id _ (by intro q; split <;> rfl)]
  unfold findPlayer at hp
  rw [hp]
  simp only [Option.map]
  rw [if_pos hid]

theorem findPlayer_updateBet (st : GameState) (uid : Nat) (amt : Int)
    (p : GamePlayer) (hp : findPlayer st uid = some p) :
    findPlayer (updatePlayerBet st uid amt) uid =
      some { p with betAmount := amt } := by
  have hid : p.userId = uid := by simpa using List.find?_some hp
  unfold findPlayer updatePlayerBet
  simp only
  rw [findPlayer_map_id _ (by intro q; split <;> rfl)]
  unfold findPlayer at hp
  rw [hp]
  simp only [Option.map]
  rw [if_pos hid]

theorem advanceTurn_isOk_iff (s : GameState) :
    (advanceTurn s).isOk = true ↔
      ∃ u pos, getCurrentTurn s = some u ∧ getPlayerPosition s u = some pos := by
  unfold advanceTurn
  cases hcur : getCurrentTurn s with
  | none => simp [Except.isOk, Except.toBool, hcur]
  | some u =>
    simp only [hcur]
    cases hpos : getPlayerPosition s u with
    | none => simp [Except.isOk, Except.toBool, hpos]
    | some pos =>
      simp only [hpos]
      constructor
      · intro _
        exact ⟨u, pos, rfl, hpos⟩
      · intro _
        cases GET_NEXT_PLAYER s pos with
        | some nxt => rfl
        | none =>
          cases GET_FIRST_PLAYER s with
          | some nxt => rfl
          | none => rfl

/-- C5 counterexample: with the highest bet at 20 (a big-blind sized
bet) a raise TO 21 is accepted, though 21 is far below the claimed
minimum `current_bet + last_raise_increment = 20 + 20 = 40`; the code
tracks no raise increment at all. -/
theorem C5_counterexample :
    (raise
      { currentTurn := some 2, potMoney := 30, state := "pre-flop"
        players := [⟨1, some 1, 980, 20, true, "player", []⟩,
          ⟨2, some 2, 990, 10, true, "player", []⟩]
        communityCards := [], deck := [] } 2 21).isOk = true ∧
    getCurrentBet
      { currentTurn := some 2, potMoney := 30, state := "pre-flop"
        players := [⟨1, some 1, 980, 20, true, "player", []⟩,
          ⟨2, some 2, 990, 10, true, "player", []⟩]
        communityCards := [], deck := [] } = 20 ∧
    (21 : Int) < 20 + 20 := by
  refine ⟨by decide, by decide, by decide⟩

/-- Under the acceptance conditions, the success of `raise` is the
success of the final `advanceTurn` on the updated state. -/
theorem raise_isOk_eq (st : GameState) (uid : Nat) (amt : Int) (p : GamePlayer)
    (hcur : st.currentTurn = some uid) (hfp : findPlayer st uid = some p)
    (hgt : getCurrentBet st < amt)
    (hch : ¬ p.chipCount < amt - getPlayerBet st uid) :
    (raise st uid amt).isOk = (advanceTurn (addToPot (updatePlayerBet
      (updatePlayerChips st uid (-(amt - getPlayerBet st uid))) uid amt)
      (amt - getPlayerBet st uid)).1).isOk := by
  unfold raise
  rw [validateTurn_ok st uid hcur]
  simp only [except_bind_ok, except_pure_eq, if_neg (not_le.mpr hgt)]
  unfold getPlayerChips
  rw [hfp]
  simp only [except_bind_ok, if_neg hch]
  cases hadv : advanceTurn (addToPot (updatePlayerBet
      (updatePlayerChips st uid (-(amt - getPlayerBet st uid))) uid amt)
      (amt - getPlayerBet st uid)).1 with
  | error e => rfl
  | ok pr => rfl

/-- C5 as amended: a raise TO `amt` is accepted exactly when it is the
submitting seat's turn, `amt` strictly exceeds the current maximum
bet, the seat exists with a table position, and the seat holds at
least `amt - committed_this_round` chips (so `amt` cannot exceed
committed plus stack).  No minimum-raise increment is enforced. -/
theorem C5_raise_acceptance (st : GameState) (uid : Nat) (amt : Int) :
    (raise st uid amt).isOk = true ↔
      (st.currentTurn = some uid ∧ getCurrentBet st < amt ∧
        ∃ p, findPlayer st uid = some p ∧ amt ≤ p.betAmount + p.chipCount ∧
          p.position.isSome) := by
  constructor
  · intro h
    have hcur : st.currentTurn = some uid := by
      by_contra hne
      obtain ⟨e, he⟩ := validateTurn_error st uid hne
      unfold raise at h
      rw [he, except_bind_error] at h
      simp [Except.isOk, Except.toBool] at h
    have hgt : getCurrentBet st < amt := by
      by_contra hle
      unfold raise at h
      rw [validateTurn_ok st uid hcur, except_bind_ok,
        if_pos (not_lt.mp hle)] at h
      simp [except_throw_eq, except_bind_error, Except.isOk, Except.toBool] at h
    cases hfp : findPlayer st uid with
    | none =>
      exfalso
      unfold raise at h
      rw [validateTurn_ok st uid hcur] at h
      simp only [except_bind_ok, except_pure_eq, if_neg (not_le.mpr hgt)] at h
      unfold getPlayerChips at h
      rw [hfp, except_bind_error] at h
      simp [Except.isOk, Except.toBool] at h
    | some p =>
      have hbet : getPlayerBet st uid = p.betAmount := by
        unfold getPlayerBet
        rw [hfp]
        rfl
      have hch : ¬ p.chipCount < amt - getPlayerBet st uid := by
        intro hlt
        unfold raise at h
        rw [validateTurn_ok st uid hcur] at h
        simp only [except_bind_ok, except_pure_eq, if_neg (not_le.mpr hgt)] at h
        unfold getPlayerChips at h
        rw [hfp] at h
        simp only [except_bind_ok, if_pos hlt, except_throw_eq,
          except_bind_error] at h
        simp [Except.isOk, Except.toBool] at h
      rw [raise_isOk_eq st uid amt p hcur hfp hgt hch] at h
      obtain ⟨u2, pos2, hu2, hpos2⟩ := (advanceTurn_isOk_iff _).mp h
      have hcur3 : getCurrentTurn (addToPot (updatePlayerBet
          (updatePlayerChips st uid (-(amt - getPlayerBet st uid))) uid amt)
          (amt - getPlayerBet st uid)).1 = st.currentTurn := rfl
      rw [hcur3, hcur] at hu2
      injection hu2 with hu2
      subst hu2
      have hfp3 : findPlayer (addToPot (updatePlayerBet
          (updatePlayerChips st uid (-(amt - getPlayerBet st uid))) uid amt)
          (amt - getPlayerBet st uid)).1 uid =
          some { { p with chipCount :=
            p.chipCount + -(amt - getPlayerBet st uid) } with betAmount := amt } :=
        findPlayer_updateBet _ _ _ _ (findPlayer_updateChips st uid _ p hfp)
      unfold getPlayerPosition at hpos2
      rw [hfp3] at hpos2
      simp only [Option.bind] at hpos2
      refine ⟨hcur, hgt, p, rfl, by omega, ?_⟩
      rw [Option.isSome_iff_exists]
      exact ⟨pos2, hpos2⟩
  · intro ⟨hcur, hgt, p, hfp, hle, hpos⟩
    have hbet : getPlayerBet st uid = p.betAmount := by
      unfold getPlayerBet
      rw [hfp]
      rfl
    have hch : ¬ p.chipCount < amt - getPlayerBet st uid := by omega
    rw [raise_isOk_eq st uid amt p hcur hfp hgt hch]
    rw [advanceTurn_isOk_iff]
    obtain ⟨pos, hpossome⟩ := Option.isSome_iff_exists.mp hpos
    have hfp3 : findPlayer (addToPot (updatePlayerBet
        (updatePlayerChips st uid (-(amt - getPlayerBet st uid))) uid amt)
        (amt - getPlayerBet st uid)).1 uid =
        some { { p with chipCount :=
          p.chipCount + -(amt - getPlayerBet st uid) } with betAmount := amt } :=
      findPlayer_updateBet _ _ _ _ (findPlayer_updateChips st uid _ p hfp)
    refine ⟨uid, pos, ?_, ?_⟩
    · show st.currentTurn = some uid
      exact hcur
    · unfold getPlayerPosition
      rw [hfp3]
      simpa using hpossome

/-- Witness for C5 as amended, at the counterexample state: raise TO
21 is accepted and the acceptance conditions hold there. -/
theorem C5_raise_acceptance_witness :
    (raise
      { currentTurn := some 2, potMoney := 30, state := "pre-flop"
        players := [⟨1, some 1, 980, 20, true, "player", []⟩,
          ⟨2, some 2, 990, 10, true, "player", []⟩]
        communityCards := [], deck := [] } 2 21).isOk = true :=
  (C5_raise_acceptance
    { currentTurn := some 2, potMoney := 30, state := "pre-flop"
      players := [⟨1, some 1, 980, 20, true, "player", []⟩,
        ⟨2, some 2, 990, 10, true, "player", []⟩]
      communityCards := [], deck := [] } 2 21).mpr
    ⟨rfl, by decide, ⟨2, some 2, 990, 10, true, "player", []⟩, by decide,
      by decide, by decide⟩

/-! ### Round completion (C6) -/

theorem foldl_max_const (c : Int) (l : List Int) (h : ∀ x ∈ l, x = c) :
    l.foldl max c = c := by
  induction l with
  | nil => rfl
  | cons x xs ih =>
    rw [List.foldl_cons, h x (List.mem_cons_self _ _), max_self]
    exact ih (fun y hy => h y (List.mem_cons_of_mem _ hy))

theorem dedup_length_le_one_iff (l : List Int) :
    l.dedup.length ≤ 1 ↔ ∀ a ∈ l, ∀ b ∈ l, a = b := by
  constructor
  · intro h a ha b hb
    have ha2 : a ∈ l.dedup := List.mem_dedup.mpr ha
    have hb2 : b ∈ l.dedup := List.mem_dedup.mpr hb
    cases hd : l.dedup with
    | nil => rw [hd] at ha2; simp at ha2
    | cons x xs =>
      rw [hd] at ha2 hb2 h
      have hxs : xs = [] := by
        rw [List.length_cons] at h
        exact List.eq_nil_of_length_eq_zero (by omega)
      subst hxs
      simp at ha2 hb2
      rw [ha2, hb2]
  · intro h
    cases hd : l.dedup with
    | nil => simp
    | cons x xs =>
      cases xs with
      | nil => simp
      | cons y ys =>
        exfalso
        have hnd : l.dedup.Nodup := List.nodup_dedup l
        rw [hd] at hnd
        have hx : x ∈ l.dedup := by rw [hd]; exact List.mem_cons_self _ _
        have hy : y ∈ l.dedup := by rw [hd]; simp
        have hxy := h x (List.mem_dedup.mp hx) y (List.mem_dedup.mp hy)
        subst hxy
        simp at hnd

/-- C6 counterexample: one non-folded player with bet 0 who has not
acted yet: the round-service predicate says the round is open, the
all-bets-equal query says it is complete. -/
theorem C6_counterexample :
    isBettingRoundComplete [⟨1, some 1, 1000, 0, false, "player", []⟩] = false ∧
    areAllBetsEqual [⟨1, some 1, 1000, 0, false, "player", []⟩] = true := by
  refine ⟨by decide, by decide⟩

/-- C6 as amended: the round-service predicate is true iff every
non-folded player has acted and all non-folded bets agree (matching
the claimed characterization); the all-bets-equal query is true iff
all non-folded bets agree, ignoring `has_acted`.  The predicate
implies the query but the two disagree whenever the bets are level and
someone has not acted. -/
theorem C6_round_complete_characterization (players : List GamePlayer) :
    (isBettingRoundComplete players = true ↔
      ((∀ p ∈ players, p.betAmount ≥ 0 → p.hasActed = true) ∧
        (∀ p ∈ players, p.betAmount ≥ 0 → ∀ q ∈ players, q.betAmount ≥ 0 →
          p.betAmount = q.betAmount))) ∧
    (areAllBetsEqual players = true ↔
      (∀ p ∈ players, p.betAmount ≥ 0 → ∀ q ∈ players, q.betAmount ≥ 0 →
        p.betAmount = q.betAmount)) ∧
    (isBettingRoundComplete players = true → areAllBetsEqual players = true) := by
  have hmem : ∀ p : GamePlayer,
      p ∈ players.filter (fun q => q.betAmount ≥ 0) ↔
        (p ∈ players ∧ p.betAmount ≥ 0) := by
    intro p
    rw [List.mem_filter]
    simp
  have hbetsmem : ∀ b : Int,
      b ∈ (players.filter (fun q => q.betAmount ≥ 0)).map (fun q => q.betAmount) ↔
        ∃ p ∈ players, p.betAmount ≥ 0 ∧ p.betAmount = b := by
    intro b
    rw [List.mem_map]
    constructor
    · intro ⟨q, hq, hqb⟩
      rw [hmem] at hq
      exact ⟨q, hq.1, hq.2, hqb⟩
    · intro ⟨q, hq, hqb, hqe⟩
      exact ⟨q, (hmem q).mpr ⟨hq, hqb⟩, hqe⟩
  have hq : areAllBetsEqual players = true ↔
      (∀ p ∈ players, p.betAmount ≥ 0 → ∀ q ∈ players, q.betAmount ≥ 0 →
        p.betAmount = q.betAmount) := by
    unfold areAllBetsEqual
    rw [decide_eq_true_eq, dedup_length_le_one_iff]
    constructor
    · intro h p hp hpb q hq2 hqb
      exact h _ ((hbetsmem _).mpr ⟨p, hp, hpb, rfl⟩)
        _ ((hbetsmem _).mpr ⟨q, hq2, hqb, rfl⟩)
    · intro h a ha b hb
      obtain ⟨p, hp, hpb, hpe⟩ := (hbetsmem a).mp ha
      obtain ⟨q, hq2, hqb, hqe⟩ := (hbetsmem b).mp hb
      rw [← hpe, ← hqe]
      exact h p hp hpb q hq2 hqb
  have hc : isBettingRoundComplete players = true ↔
      ((∀ p ∈ players, p.betAmount ≥ 0 → p.hasActed = true) ∧
        (∀ p ∈ players, p.betAmount ≥ 0 → ∀ q ∈ players, q.betAmount ≥ 0 →
          p.betAmount = q.betAmount)) := by
    unfold isBettingRoundComplete
    cases hact : players.filter (fun q => q.betAmount ≥ 0) with
    | nil =>
      simp only [isBettingRoundCompleteActive]
      constructor
      · intro _
        constructor
        · intro p hp hpb
          have : p ∈ players.filter (fun q => q.betAmount ≥ 0) :=
            (hmem p).mpr ⟨hp, hpb⟩
          rw [hact] at this
          simp at this
        · intro p hp hpb
          have : p ∈ players.filter (fun q => q.betAmount ≥ 0) :=
            (hmem p).mpr ⟨hp, hpb⟩
          rw [hact] at this
          simp at this
      · intro _
        trivial
    | cons a rest =>
      have hmem2 : ∀ p : GamePlayer, p ∈ a :: rest ↔ (p ∈ players ∧ p.betAmount ≥ 0) := by
        intro p
        rw [← hact]
        exact hmem p
      simp only [isBettingRoundCompleteActive]
      by_cases hacted : (a :: rest).all (fun p => p.hasActed)
      · rw [if_neg (by simpa using hacted)]
        have hactedok : ∀ p ∈ players, p.betAmount ≥ 0 → p.hasActed = true := by
          intro p hp hpb
          have := List.all_eq_true.mp hacted p ((hmem2 p).mpr ⟨hp, hpb⟩)
          simpa using this
        constructor
        · intro h
          refine ⟨hactedok, ?_⟩
          have hall := List.all_eq_true.mp h
          intro p hp hpb q hq2 hqb
          have hp2 := hall p ((hmem2 p).mpr ⟨hp, hpb⟩)
          have hq3 := hall q ((hmem2 q).mpr ⟨hq2, hqb⟩)
          rw [decide_eq_true_eq] at hp2 hq3
          rw [hp2, hq3]
        · intro ⟨_, heq⟩
          have haconst : ∀ x ∈ rest.map (fun p => p.betAmount), x = a.betAmount := by
            intro x hx
            obtain ⟨q, hq2, hqe⟩ := List.mem_map.mp hx
            have hqin := (hmem2 q).mp (List.mem_cons_of_mem _ hq2)
            have hain := (hmem2 a).mp (List.mem_cons_self _ _)
            rw [← hqe]
            exact heq q hqin.1 hqin.2 a hain.1 hain.2
          rw [List.all_eq_true]
          intro p hp
          have hpin := (hmem2 p).mp hp
          have hain := (hmem2 a).mp (List.mem_cons_self _ _)
          rw [decide_eq_true_eq, foldl_max_const _ _ haconst]
          exact heq p hpin.1 hpin.2 a hain.1 hain.2
      · rw [if_pos (by simpa using hacted)]
        constructor
        · intro h
          exact absurd h (by simp)
        · intro ⟨hactall, _⟩
          exfalso
          apply hacted
          rw [List.all_eq_true]
          intro p hp
          have hpin := (hmem2 p).mp hp
          simpa using hactall p hpin.1 hpin.2
  refine ⟨hc, hq, ?_⟩
  intro h
  exact hq.mpr (hc.mp h).2

/-- Witness for C6 as amended, at a two-player vector with equal bets
and both acted: both predicates are true. -/
theorem C6_round_complete_characterization_witness :
    isBettingRoundComplete [⟨1, some 1, 980, 20, true, "player", []⟩,
      ⟨2, some 2, 980, 20, true, "player", []⟩] = true ∧
    areAllBetsEqual [⟨1, some 1, 980, 20, true, "player", []⟩,
      ⟨2, some 2, 980, 20, true, "player", []⟩] = true := by
  have h := C6_round_complete_characterization
    [⟨1, some 1, 980, 20, true, "player", []⟩,
      ⟨2, some 2, 980, 20, true, "player", []⟩]
  have hc : isBettingRoundComplete [⟨1, some 1, 980, 20, true, "player", []⟩,
      ⟨2, some 2, 980, 20, true, "player", []⟩] = true := by
    apply h.1.mpr
    refine ⟨?_, ?_⟩
    · decide
    · decide
  exact ⟨hc, h.2.2 hc⟩

/-! ### No immediate last-player-standing win (C3) -/

theorem dealCommunityCards_ok (st : GameState) (es ns : String) (count : Nat)
    (st2 : GameState) (h : dealCommunityCards st es ns count = .ok st2) :
    st2.potMoney = st.potMoney ∧
    st2.players.map (fun p => (p.userId, p.chipCount)) =
      st.players.map (fun p => (p.userId, p.chipCount)) ∧
    st2.state = ns := by
  unfold dealCommunityCards at h
  by_cases h1 : st.state ≠ es
  · simp [h1, except_throw_eq, except_bind_error] at h
  simp only [if_neg h1, except_pure_eq, except_bind_ok] at h
  by_cases h2 : (List.take count st.deck).length ≠ count
  · rw [if_pos h2] at h
    simp [except_throw_eq, except_bind_error] at h
  rw [if_neg h2] at h
  injection h with h
  subst h
  refine ⟨rfl, ?_, rfl⟩
  show ((st.players.map (fun p =>
      if p.betAmount ≥ 0 then { p with betAmount := 0 } else p)).map
      (fun p => { p with hasActed := false })).map
      (fun p => (p.userId, p.chipCount)) = _
  rw [List.map_map, List.map_map]
  apply List.map_congr_left
  intro p _
  simp only [Function.comp]
  split
  · rfl
  · rfl

/-- A concrete pre-flop state: blinds 10/20 in the pot, player 1 (to
act) and player 2 (big blind, has not acted).  After player 1 folds,
exactly one non-folded player remains. -/
def exFoldState : GameState :=
  { currentTurn := some 1, potMoney := 30, state := "pre-flop"
    players := [⟨1, some 1, 990, 10, true, "small_blind",
        [⟨"2", "C"⟩, ⟨"7", "C"⟩]⟩,
      ⟨2, some 2, 980, 20, false, "big_blind", [⟨"9", "H"⟩, ⟨"9", "D"⟩]⟩]
    communityCards := []
    deck := [⟨"Q", "S"⟩, ⟨"J", "S"⟩, ⟨"10", "S"⟩, ⟨"5", "H"⟩, ⟨"3", "D"⟩,
      ⟨"4", "H"⟩] }

/-- C3 counterexample: player 1 folds, leaving player 2 as the only
non-folded player, yet the hand does not end: the post-action pipeline
leaves the game in `pre-flop`, the pot stays at 30, and player 2 is
not paid.  No code path declares a sole survivor the winner. -/
theorem C3_counterexample :
    (fold exFoldState 1).toOption.map (fun r =>
      ((r.1.players.filter (fun p => p.betAmount ≥ 0)).map (fun p => p.userId),
        (checkAndAdvanceRound r.1).toOption.map (fun s =>
          (s.state, s.potMoney, (findPlayer s 2).map (fun p => p.chipCount))))) =
    some ([2], some ("pre-flop", 30, some 980)) := by decide

/-- C3 as amended: the post-action round pipeline never ends the hand
or moves chips before the river: away from the `river` state,
`checkAndAdvanceRound` preserves the pot and every stack (it only
deals cards and resets bets), so a hand with one non-folded player
continues street by street and the pot is only awarded by the river
showdown. -/
theorem C3_no_early_hand_end (st st2 : GameState)
    (h : checkAndAdvanceRound st = .ok st2) (hst : st.state ≠ "river") :
    st2.potMoney = st.potMoney ∧
    st2.players.map (fun p => (p.userId, p.chipCount)) =
      st.players.map (fun p => (p.userId, p.chipCount)) := by
  unfold checkAndAdvanceRound at h
  by_cases hcomplete : isBettingRoundComplete st.players = true
  · rw [if_neg (by simp [hcomplete])] at h
    by_cases hpre : st.state = "pre-flop"
    · rw [if_pos hpre] at h
      have := dealCommunityCards_ok st "pre-flop" "flop" 3 st2 h
      exact ⟨this.1, this.2.1⟩
    rw [if_neg hpre] at h
    by_cases hflop : st.state = "flop"
    · rw [if_pos hflop] at h
      have := dealCommunityCards_ok st "flop" "turn" 1 st2 h
      exact ⟨this.1, this.2.1⟩
    rw [if_neg hflop] at h
    by_cases hturn : st.state = "turn"
    · rw [if_pos hturn] at h
      have := dealCommunityCards_ok st "turn" "river" 1 st2 h
      exact ⟨this.1, this.2.1⟩
    rw [if_neg hturn, if_neg hst] at h
    simp only [except_pure_eq] at h
    injection h with h
    subst h
    exact ⟨rfl, rfl⟩
  · rw [if_pos (by simp [hcomplete])] at h
    simp only [except_pure_eq] at h
    injection h with h
    subst h
    exact ⟨rfl, rfl⟩

/-- Witness for C3 as amended: the pipeline state after the fold of
the counterexample (player 2 alone, round not complete). -/
theorem C3_no_early_hand_end_witness :
    ∃ st2, checkAndAdvanceRound
      { currentTurn := some 2, potMoney := 30, state := "pre-flop"
        players := [⟨1, some 1, 990, -1, true, "small_blind",
            [⟨"2", "C"⟩, ⟨"7", "C"⟩]⟩,
          ⟨2, some 2, 980, 20, false, "big_blind", [⟨"9", "H"⟩, ⟨"9", "D"⟩]⟩]
        communityCards := []
        deck := [⟨"Q", "S"⟩, ⟨"J", "S"⟩, ⟨"10", "S"⟩, ⟨"5", "H"⟩, ⟨"3", "D"⟩,
          ⟨"4", "H"⟩] } = .ok st2 ∧ st2.potMoney = 30 := by
  cases hrun : checkAndAdvanceRound
      { currentTurn := some 2, potMoney := 30, state := "pre-flop"
        players := [⟨1, some 1, 990, -1, true, "small_blind",
            [⟨"2", "C"⟩, ⟨"7", "C"⟩]⟩,
          ⟨2, some 2, 980, 20, false, "big_blind", [⟨"9", "H"⟩, ⟨"9", "D"⟩]⟩]
        communityCards := []
        deck := [⟨"Q", "S"⟩, ⟨"J", "S"⟩, ⟨"10", "S"⟩, ⟨"5", "H"⟩, ⟨"3", "D"⟩,
          ⟨"4", "H"⟩] } with
  | error e =>
    have hok : (checkAndAdvanceRound
      { currentTurn := some 2, potMoney := 30, state := "pre-flop"
        players := [⟨1, some 1, 990, -1, true, "small_blind",
            [⟨"2", "C"⟩, ⟨"7", "C"⟩]⟩,
          ⟨2, some 2, 980, 20, false, "big_blind", [⟨"9", "H"⟩, ⟨"9", "D"⟩]⟩]
        communityCards := []
        deck := [⟨"Q", "S"⟩, ⟨"J", "S"⟩, ⟨"10", "S"⟩, ⟨"5", "H"⟩, ⟨"3", "D"⟩,
          ⟨"4", "H"⟩] }).isOk = true := by decide
    rw [hrun] at hok
    simp [Except.isOk, Except.toBool] at hok
  | ok st2 =>
    refine ⟨st2, rfl, ?_⟩
    have := C3_no_early_hand_end _ st2 hrun (by decide)
    rw [this.1]

/-! ### Odd-chip distribution (C7) -/

/-- C7 counterexample: with pot 101, winners at seats 1 and 3 and the
button at seat 2, the spec awards the odd chip to seat 3 (earliest
clockwise from the button) while the code awards it to seat 1 (first
in the stats-query order); and with pot 5 and three tied winners the
code hands one chip each to the first two winners instead of the whole
remainder to a single winner. -/
theorem C7_counterexample :
    calculatePayouts 101 [1, 3] = [(1, 51), (3, 50)] ∧
    specButtonPayouts 101 [3, 1] = [(3, 51), (1, 50)] ∧
    (calculatePayouts 101 [1, 3]).lookup 1 ≠ (specButtonPayouts 101 [3, 1]).lookup 1 ∧
    calculatePayouts 5 [1, 2, 3] = [(1, 2), (2, 2), (3, 1)] ∧
    specButtonPayouts 5 [1, 2, 3] = [(1, 3), (2, 1), (3, 1)] := by
  refine ⟨by decide, by decide, by decide, by decide, by decide⟩

/-- C7 as amended: for a non-negative pot and non-empty winner list,
the payouts follow the winner-list order (the stats-query order,
position ascending — no dealer button is involved): each of the first
`pot mod winners` winners receives `floor(pot / winners) + 1`, every
later winner receives the floor share, and the amounts sum to the
pot. -/
theorem C7_remainder_distribution (pot : Int) (ws : List Nat)
    (hpot : 0 ≤ pot) (hw : ws ≠ []) :
    ((calculatePayouts pot ws).map (fun p => p.1)) = ws ∧
    ((calculatePayouts pot ws).map (fun p => p.2)) =
      (List.range ws.length).map (fun i : Nat =>
        Int.fdiv pot ws.length +
          if (i : Int) < Int.tmod pot ws.length then 1 else 0) ∧
    ((calculatePayouts pot ws).map (fun p => p.2)).sum = pot :=
  ⟨calculatePayouts_map_fst pot ws, calculatePayouts_map_snd pot ws hw,
    calculatePayouts_sum pot ws hpot hw⟩

/-- Witness for C7 as amended at pot 101 with two winners (spec
scenario S6 numbers): the payouts are 51 and 50 and sum to 101. -/
theorem C7_remainder_distribution_witness :
    ((calculatePayouts 101 [1, 2]).map (fun p => p.2)).sum = 101 ∧
    calculatePayouts 101 [1, 2] = [(1, 51), (2, 50)] :=
  ⟨(C7_remainder_distribution 101 [1, 2] (by decide) (by decide)).2.2,
    by decide⟩

/-- Witness for C10: two players, both folded, turn on player 1;
`advanceTurn` succeeds, returns player 1 and keeps the turn. -/
theorem C10_advanceTurn_sole_player_witness :
    ∃ st2, advanceTurn
      { currentTurn := some 1, potMoney := 0, state := "pre-flop"
        players := [⟨1, some 1, 990, -1, true, "player", []⟩,
          ⟨2, some 2, 980, -1, false, "player", []⟩]
        communityCards := [], deck := [] } = .ok (st2, 1) ∧
      st2.currentTurn = some 1 := by
  obtain ⟨st2, h1, h2⟩ := C10_advanceTurn_sole_player
    { currentTurn := some 1, potMoney := 0, state := "pre-flop"
      players := [⟨1, some 1, 990, -1, true, "player", []⟩,
        ⟨2, some 2, 980, -1, false, "player", []⟩]
      communityCards := [], deck := [] }
    1 ⟨1, some 1, 990, -1, true, "player", []⟩ rfl (by decide) (by decide)
    (by decide)
  exact ⟨st2, h1, h2⟩

/-! ### Single pot, no side-pot layers (C1) -/

theorem forall₂_mem_left {R : α → β → Prop} {l : List α} {out : List β}
    (h : List.Forall₂ R l out) (a : α) (ha : a ∈ l) : ∃ b ∈ out, R a b := by
  induction h with
  | nil => simp at ha
  | cons hr _ ih =>
    rcases List.mem_cons.mp ha with h2 | h2
    · subst h2; exact ⟨_, List.mem_cons_self _ _, hr⟩
    · rcases ih h2 with ⟨b, hb, hbr⟩
      exact ⟨b, List.mem_cons_of_mem _ hb, hbr⟩

/-- C1 counterexample: contributions 50/200/200 (pot 450), no folds.
The claim says seat 1 (contribution 50) contests only the 150 main
pot, and the 300 side pot belongs to seats 2 and 3; the
specification-side decomposition indeed yields layers
`[(150, [1,2,3]), (300, [2,3])]`.  The engine instead pays seat 1,
holder of the best hand, the entire 450 pot. -/
theorem C1_counterexample :
    ((runShowdown exShowdownState).toOption.map (fun r => r.2.payouts)) =
      some [(1, 450)] ∧
    specSidePots [(1, 50), (2, 200), (3, 200)] [1, 2, 3] =
      [(150, [1, 2, 3]), (300, [2, 3])] ∧
    (450 : Int) ≠ 150 := by
  refine ⟨by decide, by decide, by decide⟩

/-- C1 as amended: the showdown builds no side pots.  Every successful
showdown distributes the single `pot_money` through `calculatePayouts`
over one winner list, and every winner is simply a non-folded seat
holding a maximal hand among all non-folded seats — per-seat
contributions never restrict eligibility. -/
theorem C1_single_pot_no_layers (st st2 : GameState) (res : ShowdownResult)
    (h : runShowdown st = .ok (st2, res)) :
    res.payouts = calculatePayouts st.potMoney res.winners ∧
    (∀ u ∈ res.winners, ∃ p ∈ st.players, p.userId = u ∧ p.betAmount ≥ 0 ∧
      ∃ hu, evaluateHand p.holeCards st.communityCards = .ok hu ∧
        ∀ q ∈ st.players, q.betAmount ≥ 0 → ∀ hq,
          evaluateHand q.holeCards st.communityCards = .ok hq →
            0 ≤ compareHands hu hq) := by
  obtain ⟨phs, ws, hs, hmap, hdw, hwin, hpay, hst2⟩ :=
    runShowdown_ok_dissect st st2 res h
  constructor
  · rw [hpay, hwin]
  · intro u hu
    rw [hwin] at hu
    obtain ⟨w, hwmem, hwid, hwmax⟩ := dw_winners_maximal phs ws hs hdw u hu
    have hf2 := list_mapM_ok_forall₂ _ _ _ hmap
    obtain ⟨a, hamem, har⟩ := forall₂_mem_right hf2 w hwmem
    obtain ⟨haid, haev⟩ := evalPlayerHand_ok _ _ _ har
    rw [List.mem_filter] at hamem
    refine ⟨a, hamem.1, by rw [← haid, hwid], by simpa using hamem.2,
      w.hand, haev, ?_⟩
    intro q hq hqb hqhand hqev
    have hqactive : q ∈ st.players.filter (fun p => p.betAmount ≥ 0) := by
      rw [List.mem_filter]
      exact ⟨hq, by simpa using hqb⟩
    obtain ⟨b, hbmem, hbr⟩ := forall₂_mem_left hf2 q hqactive
    obtain ⟨hbid, hbev⟩ := evalPlayerHand_ok _ _ _ hbr
    have hqh : hqhand = b.hand := by
      rw [hqev] at hbev
      injection hbev
    rw [hqh]
    exact hwmax b hbmem

/-- Witness for C1 as amended: on the concrete 450-pot river showdown
the result payouts equal the single-pot distribution over the winner
list. -/
theorem C1_single_pot_no_layers_witness :
    (runShowdown exShowdownState).toOption.map
      (fun r => (r.2.payouts, calculatePayouts 450 r.2.winners)) =
      some ([(1, 450)], [(1, 450)]) := by
  cases hrun : runShowdown exShowdownState with
  | error e =>
    have hok : (runShowdown exShowdownState).toOption.isSome = true := by decide
    rw [hrun] at hok
    simp [Except.toOption] at hok
  | ok pr =>
    obtain ⟨st2, res⟩ := pr
    have h := (C1_single_pot_no_layers exShowdownState st2 res hrun).1
    have hpay : res.payouts = [(1, 450)] := by
      have : (runShowdown exShowdownState).toOption.map (fun r => r.2.payouts) =
          some [(1, 450)] := by decide
      rw [hrun] at this
      simpa [Except.toOption] using this
    simp only [Except.toOption, Option.map]
    rw [hpay] at h ⊢
    rw [show exShowdownState.potMoney = (450 : Int) from rfl] at h
    rw [← h]

end Poker
